import Mathlib

/-!
secure-jwt-token: the three-tier credential pipeline of `pkg/pkg.jwt.go`.

A shallow embedding of `createSecret`, `createSignature` and `Sign`.

* Go strings and byte slices are byte lists (`GoString`); `string(b)` and
  `[]byte(s)` are the identity.
* Every call that leaves the file (the cache, the `helpers` and `Jose`
  collaborators, the clock, the fallible standard-library calls) is one *step*:
  it reads the collaborator's answer for the current step counter, advances
  the counter and appends one entry (the call, its arguments, its error if
  any) to the trace.  Answers may depend on the step counter, so random,
  time-dependent and failing collaborators are all covered.
* A routine returns a value, returns an error, or panics (slice out of range).
-/

namespace SecureJwt

/-! ## Strings -/

/-- A Go `string` / `[]byte`: a sequence of bytes. -/
abbrev GoString := List UInt8

/-- An ASCII string literal of the source as bytes. -/
def lit (s : String) : GoString := s.data.map (fun c => UInt8.ofNat c.toNat)

/-- One lower-case hexadecimal digit, as `encoding/hex` writes it. -/
def hexDigit (n : Nat) : UInt8 :=
  if n < 10 then UInt8.ofNat (48 + n) else UInt8.ofNat (87 + n)

/-- The function `hex.EncodeToString`: two lower-case digits per byte. -/
def hexEncode : GoString → GoString
  | [] => []
  | b :: bs => hexDigit (b.toNat / 16) :: hexDigit (b.toNat % 16) :: hexEncode bs

/-- The verb `%d` of `fmt.Sprintf` on an integer. -/
def fmtInt (n : Int) : GoString := lit (toString n)

/-- The call `fmt.Sprintf("%s:%s:%s:%d", a, b, c, n)`. -/
def sprintfColon (a b c : GoString) (n : Int) : GoString :=
  a ++ lit ":" ++ b ++ lit ":" ++ c ++ lit ":" ++ fmtInt n

/-- The slice expression `s[lo:hi]` on a string; `none` is the run-time panic
"slice bounds out of range". -/
def slice (s : GoString) (lo hi : Nat) : Option GoString :=
  if lo ≤ hi ∧ hi ≤ s.length then some ((s.drop lo).take (hi - lo)) else none

/-! ## Durations and instants -/

/-- Two's-complement wrap-around of a 64-bit signed integer. -/
def wrap64 (x : Int) : Int := (x + 2 ^ 63) % 2 ^ 64 - 2 ^ 63

/-- The constant `time.Minute`, in nanoseconds. -/
def Minute : Int := 60000000000

/-- The expression `time.Duration(time.Minute * time.Duration(n))`, an `int64`
count of nanoseconds. -/
def minutes (n : Int) : Int := wrap64 (Minute * wrap64 n)

inductive Location where
  | Local
  | UTC
  deriving DecidableEq, Repr

/-- A `time.Time`: an instant (nanoseconds since the Unix epoch) and a location. -/
structure Time where
  unixNano : Int
  loc : Location
  deriving DecidableEq, Repr

def Time.UTC (t : Time) : Time := { t with loc := Location.UTC }

def Time.Add (t : Time) (d : Int) : Time := { t with unixNano := t.unixNano + d }

/-- The layout `time.UnixDate`. -/
def UnixDate : GoString := lit "Mon Jan _2 15:04:05 MST 2006"

/-! ## Records -/

/-- A Go `error` value. -/
inductive Error where
  | redisNil
  | failure (code : Nat)
  deriving DecidableEq, Repr

structure PublicKey where
  N : Nat
  E : Nat
  deriving DecidableEq, Repr

/-- An `rsa.PrivateKey`; the public key is an embedded field. -/
structure PrivateKey where
  PublicKey : PublicKey
  D : Nat
  deriving DecidableEq, Repr

structure SecretMetadata where
  PrivKey : GoString
  PubKey : GoString
  CipherKey : GoString
  deriving DecidableEq, Repr

/-- Modelled from the spec: the exported portable form of the private key
(`JwkRawMetadata`, declared outside the file), kept as opaque bytes. -/
structure JwkRawMetadata where
  raw : GoString
  deriving DecidableEq, Repr

/-- Modelled from the spec: the result of `ExportJsonWebKey`, declared outside
the file; only `KeyRaw` is read. -/
structure JwkMetadata where
  KeyRaw : JwkRawMetadata
  deriving DecidableEq, Repr

/-- Modelled from the spec: the wrapped-key envelope of `JweEncrypt`
(`JweEncryptMetadata`, declared outside the file): its ciphertext, the only
field read, and the other envelope metadata. -/
structure JweEncryptMetadata where
  CipherText : GoString
  rest : GoString
  deriving DecidableEq, Repr

structure SignatureMetadata where
  PrivKey : GoString
  SigKey : GoString
  CipherKey : GoString
  JwkKey : JwkRawMetadata
  JweKey : JweEncryptMetadata
  deriving DecidableEq, Repr

/-- The claim set handed to the token codec (`JwtSignOption`, declared outside
the file), with the fields that `Sign` assigns. -/
structure JwtSignOption where
  SecretKey : GoString
  Kid : GoString
  PrivateKey : PrivateKey
  Aud : List GoString
  Iss : GoString
  Sub : GoString
  Jti : GoString
  Iat : Time
  Exp : Time
  Claim : GoString
  deriving DecidableEq, Repr

/-- The fields of `configs.Environtment` that the file reads. -/
structure Environtment where
  JWT_SECRET_KEY : GoString
  JWT_EXPIRED : Int
  deriving DecidableEq, Repr

/-- A request body (`any`), named by an opaque description; the serializer
decides whether and how it marshals. -/
abbrev Body := GoString

/-! ## The cache -/

/-- A stored payload with the expiration given when it was written. -/
structure Entry where
  value : GoString
  expiry : Int
  deriving DecidableEq, Repr

/-- Association-list lookup. -/
def assoc {κ ν : Type} [DecidableEq κ] (k : κ) : List (κ × ν) → Option ν
  | [] => none
  | (k', v) :: r => if k' = k then some v else assoc k r

/-- Association-list write: the old binding of `k` is dropped. -/
def put {κ ν : Type} [DecidableEq κ] (k : κ) (v : ν) (l : List (κ × ν)) : List (κ × ν) :=
  (k, v) :: l.filter (fun x => !decide (x.1 = k))

/-- Modelled from the spec: the hash-field TTL store behind the `Redis`
interface, whose implementation is not in the file.  Hash fields are keyed by
(namespace, field), whole values by namespace.  No time passes inside a run:
an entry stays until it is overwritten, and keeps the expiration it was
written with. -/
structure Cache where
  hashes : List ((GoString × GoString) × Entry)
  strings : List (GoString × Entry)
  deriving DecidableEq, Repr

/-! ## Steps, traces and the execution monad -/

/-- A call that leaves the file, with its arguments. -/
inductive Call where
  | HExists (key field : GoString)
  | HGet (key field : GoString)
  | HSetEx (key : GoString) (expiration : Int) (field value : GoString)
  | Exists (key : GoString)
  | Get (key : GoString)
  | SetEx (key : GoString) (expiration : Int) (value : GoString)
  | Now
  | SHA512Sign (text : GoString)
  | AES256Encrypt (secret text : GoString)
  | GeneratePrivateKey (password : GoString)
  | PrivateKeyRawToKey (raw password : GoString)
  | MarshalSecret (v : SecretMetadata)
  | MarshalSignature (v : SignatureMetadata)
  | MarshalBody (v : Body)
  | UnmarshalSecret (data : GoString)
  | UnmarshalSignature (data : GoString)
  | SignPKCS1v15 (key : PrivateKey) (hashed : GoString)
  | VerifyPKCS1v15 (pub : PublicKey) (hashed sig : GoString)
  | ExportJsonWebKey (key : PrivateKey)
  | JweEncrypt (pub : PublicKey) (text : GoString)
  | JwtSign (payload : JwtSignOption)
  deriving DecidableEq, Repr

/-- One trace entry: the call and the error it raised, if any. -/
structure Event where
  call : Call
  err : Option Error
  deriving DecidableEq, Repr

/-- The state a routine runs in. -/
structure World where
  cache : Cache
  tick : Nat
  log : List Event
  deriving DecidableEq, Repr

/-- How a routine ends. -/
inductive Res (α : Type) where
  | ok (a : α)
  | error (e : Error)
  | panic
  deriving DecidableEq, Repr

/-- A routine: from a state to an outcome and the state it leaves. -/
def M (α : Type) : Type := World → Res α × World

def M.pure {α : Type} (a : α) : M α := fun w => (Res.ok a, w)

def M.bind {α β : Type} (m : M α) (f : α → M β) : M β := fun w =>
  match m w with
  | (Res.ok a, w1) => f a w1
  | (Res.error e, w1) => (Res.error e, w1)
  | (Res.panic, w1) => (Res.panic, w1)

instance : Monad M where
  pure := M.pure
  bind := M.bind

/-- The state after one step that raised `err` (or nothing). -/
def World.record (w : World) (c : Call) (err : Option Error) : World :=
  { w with tick := w.tick + 1, log := w.log ++ [⟨c, err⟩] }

/-- A fallible call to a collaborator that keeps no state of ours. -/
def step {α : Type} (c : Call) (answer : Nat → Except Error α) : M α := fun w =>
  match answer w.tick with
  | Except.ok a => (Res.ok a, w.record c none)
  | Except.error e => (Res.error e, w.record c (some e))

/-- A call to `rsa.VerifyPKCS1v15`, whose only result is an error or `nil`. -/
def check (c : Call) (answer : Option Error) : M Unit := fun w =>
  match answer with
  | none => (Res.ok (), w.record c none)
  | some e => (Res.error e, w.record c (some e))

/-- The call `time.Now()`. -/
def timeNow (clock : Nat → Time) : M Time := fun w =>
  (Res.ok (clock w.tick), w.record Call.Now none)

/-- A slice expression inside a routine. -/
def sliceM (s : GoString) (lo hi : Nat) : M GoString := fun w =>
  match slice s lo hi with
  | some r => (Res.ok r, w)
  | none => (Res.panic, w)

/-! ## Collaborators -/

/-- The cache client `h.redis`: at each step the transport either works or
raises an error. -/
structure Redis where
  fault : Nat → Option Error

/-- Modelled from the spec: `FieldExists(namespace, field)` of the cache;
a transport failure raises an error and changes nothing. -/
def Redis.HExists (r : Redis) (key field : GoString) : M Bool := fun w =>
  match r.fault w.tick with
  | some e => (Res.error e, w.record (Call.HExists key field) (some e))
  | none => (Res.ok (assoc (key, field) w.cache.hashes).isSome,
      w.record (Call.HExists key field) none)

/-- Modelled from the spec: `GetField(namespace, field)` of the cache; fails
with the not-found error if the field is absent. -/
def Redis.HGet (r : Redis) (key field : GoString) : M GoString := fun w =>
  match r.fault w.tick with
  | some e => (Res.error e, w.record (Call.HGet key field) (some e))
  | none =>
    match assoc (key, field) w.cache.hashes with
    | some en => (Res.ok en.value, w.record (Call.HGet key field) none)
    | none => (Res.error Error.redisNil, w.record (Call.HGet key field) (some Error.redisNil))

/-- Modelled from the spec: `SetFieldWithExpiry(namespace, ttl, field, value)`
of the cache; overwrites silently, and a failed write changes nothing. -/
def Redis.HSetEx (r : Redis) (key : GoString) (expiration : Int) (field value : GoString) :
    M Unit := fun w =>
  match r.fault w.tick with
  | some e => (Res.error e, w.record (Call.HSetEx key expiration field value) (some e))
  | none => (Res.ok (),
      { w with cache := { w.cache with
          hashes := put (key, field) ⟨value, expiration⟩ w.cache.hashes } }.record
        (Call.HSetEx key expiration field value) none)

/-- Modelled from the spec: `Exists(namespace)` of the cache, the number of
whole-value entries at the key. -/
def Redis.Exists (r : Redis) (key : GoString) : M Int := fun w =>
  match r.fault w.tick with
  | some e => (Res.error e, w.record (Call.Exists key) (some e))
  | none => (Res.ok (if (assoc key w.cache.strings).isSome then 1 else 0),
      w.record (Call.Exists key) none)

/-- Modelled from the spec: `Get(namespace)` of the cache; fails with the
not-found error if the key is absent. -/
def Redis.Get (r : Redis) (key : GoString) : M GoString := fun w =>
  match r.fault w.tick with
  | some e => (Res.error e, w.record (Call.Get key) (some e))
  | none =>
    match assoc key w.cache.strings with
    | some en => (Res.ok en.value, w.record (Call.Get key) none)
    | none => (Res.error Error.redisNil, w.record (Call.Get key) (some Error.redisNil))

/-- Modelled from the spec: `SetWithExpiry(namespace, ttl, value)` of the
cache; overwrites silently, and a failed write changes nothing. -/
def Redis.SetEx (r : Redis) (key : GoString) (expiration : Int) (value : GoString) :
    M Unit := fun w =>
  match r.fault w.tick with
  | some e => (Res.error e, w.record (Call.SetEx key expiration value) (some e))
  | none => (Res.ok (),
      { w with cache := { w.cache with
          strings := put key ⟨value, expiration⟩ w.cache.strings } }.record
        (Call.SetEx key expiration value) none)

/-- The package-level collaborators `cipher`, `cert`, `parser`, `jso` and the
standard-library calls, as answers per step counter.  Their code is not in
the file; every theorem quantifies over them. -/
structure Globals where
  now : Nat → Time
  Format : Time → GoString → GoString
  sha512 : GoString → GoString
  SHA512Sign : Nat → GoString → Except Error GoString
  AES256Encrypt : Nat → GoString → GoString → Except Error GoString
  GeneratePrivateKey : Nat → GoString → Except Error GoString
  PrivateKeyRawToKey : Nat → GoString → GoString → Except Error PrivateKey
  PublicKeyToRaw : PublicKey → GoString
  MarshalSecret : Nat → SecretMetadata → Except Error GoString
  MarshalSignature : Nat → SignatureMetadata → Except Error GoString
  MarshalBody : Nat → Body → Except Error GoString
  UnmarshalSecret : Nat → GoString → Except Error SecretMetadata
  UnmarshalSignature : Nat → GoString → Except Error SignatureMetadata
  SignPKCS1v15 : Nat → PrivateKey → GoString → Except Error GoString
  VerifyPKCS1v15 : PublicKey → GoString → GoString → Option Error
  ExportJsonWebKey : Nat → PrivateKey → Except Error JwkMetadata
  JweEncrypt : Nat → PublicKey → GoString → Except Error (GoString × JweEncryptMetadata)
  JwtSign : Nat → JwtSignOption → Except Error GoString

structure jsonWebToken where
  env : Environtment
  redis : Redis

/-! ## The three routines -/

/-- The method `createSecret` (lines 53-118). -/
def createSecret (g : Globals) (h : jsonWebToken) (pfx : GoString) : M SecretMetadata := do
  let secretKey := pfx ++ lit ":credential"
  let secretField := lit "certificate_metadata"
  let secretKeyExist ← h.redis.HExists secretKey secretField
  if !secretKeyExist then
    let t ← timeNow g.now
    let cipherTextRandom := g.Format t UnixDate
    let cipherText := hexEncode cipherTextRandom
    let cipherSignature ← step (Call.SHA512Sign cipherText) (fun i => g.SHA512Sign i cipherText)
    let cipherKey ← step (Call.AES256Encrypt h.env.JWT_SECRET_KEY cipherSignature)
      (fun i => g.AES256Encrypt i h.env.JWT_SECRET_KEY cipherSignature)
    let rsaPrivateKeyPassword := cipherKey
    let privateKey ← step (Call.GeneratePrivateKey rsaPrivateKeyPassword)
      (fun i => g.GeneratePrivateKey i rsaPrivateKeyPassword)
    let rsaPrivateKey ← step (Call.PrivateKeyRawToKey privateKey rsaPrivateKeyPassword)
      (fun i => g.PrivateKeyRawToKey i privateKey rsaPrivateKeyPassword)
    let secretMetadata : SecretMetadata :=
      { PrivKey := privateKey
        PubKey := g.PublicKeyToRaw rsaPrivateKey.PublicKey
        CipherKey := cipherKey }
    let secretMetadataByte ← step (Call.MarshalSecret secretMetadata)
      (fun i => g.MarshalSecret i secretMetadata)
    let jwtClaim := secretMetadataByte
    let jwtExpired := minutes h.env.JWT_EXPIRED
    h.redis.HSetEx secretKey jwtExpired secretField jwtClaim
    return secretMetadata
  else
    let secretMetadataByte ← h.redis.HGet secretKey secretField
    let secretMetadata ← step (Call.UnmarshalSecret secretMetadataByte)
      (fun i => g.UnmarshalSecret i secretMetadataByte)
    return secretMetadata

/-- The method `createSignature` (lines 120-202). -/
def createSignature (g : Globals) (h : jsonWebToken) (pfx : GoString) (body : Body) :
    M SignatureMetadata := do
  let signatureKey := pfx ++ lit ":credential"
  let signatureField := lit "signature_metadata"
  let signaturetKeyExist ← h.redis.HExists signatureKey signatureField
  if !signaturetKeyExist then
    let secretKey ← createSecret g h pfx
    let rsaPrivateKey ← step (Call.PrivateKeyRawToKey secretKey.PrivKey secretKey.CipherKey)
      (fun i => g.PrivateKeyRawToKey i secretKey.PrivKey secretKey.CipherKey)
    let bodyByte ← step (Call.MarshalBody body) (fun i => g.MarshalBody i body)
    let cipherHash512Body := g.sha512 bodyByte
    let signature ← step (Call.SignPKCS1v15 rsaPrivateKey cipherHash512Body)
      (fun i => g.SignPKCS1v15 i rsaPrivateKey cipherHash512Body)
    check (Call.VerifyPKCS1v15 rsaPrivateKey.PublicKey cipherHash512Body signature)
      (g.VerifyPKCS1v15 rsaPrivateKey.PublicKey cipherHash512Body signature)
    let signatureOutput := hexEncode signature
    let formatPrivatekeyToJws ← step (Call.ExportJsonWebKey rsaPrivateKey)
      (fun i => g.ExportJsonWebKey i rsaPrivateKey)
    let jwe ← step (Call.JweEncrypt rsaPrivateKey.PublicKey signatureOutput)
      (fun i => g.JweEncrypt i rsaPrivateKey.PublicKey signatureOutput)
    let jweKey := jwe.2
    let signatureMetadata : SignatureMetadata :=
      { PrivKey := secretKey.PrivKey
        SigKey := signatureOutput
        CipherKey := secretKey.CipherKey
        JwkKey := formatPrivatekeyToJws.KeyRaw
        JweKey := jweKey }
    let signatureMetadataByte ← step (Call.MarshalSignature signatureMetadata)
      (fun i => g.MarshalSignature i signatureMetadata)
    let jwtClaim := signatureMetadataByte
    let jwtExpired := minutes h.env.JWT_EXPIRED
    h.redis.HSetEx signatureKey jwtExpired signatureField jwtClaim
    return signatureMetadata
  else
    let signatureMetadataByte ← h.redis.HGet signatureKey signatureField
    let signatureMetadata ← step (Call.UnmarshalSignature signatureMetadataByte)
      (fun i => g.UnmarshalSignature i signatureMetadataByte)
    return signatureMetadata

/-- The method `Sign` (lines 204-270). -/
def Sign (g : Globals) (h : jsonWebToken) (pfx : GoString) (body : Body) : M GoString := do
  let tokenKey := pfx ++ lit ":token"
  let tokenExist ← h.redis.Exists tokenKey
  if tokenExist < 1 then
    let signature ← createSignature g h pfx body
    let t0 ← timeNow g.now
    let timestamp := g.Format t0 (lit "2006/01/02 15:04:05")
    let aud ← sliceM signature.SigKey 10 20
    let iss ← sliceM signature.SigKey 30 40
    let sub ← sliceM signature.SigKey 50 60
    let secretKey := sprintfColon aud iss sub h.env.JWT_EXPIRED
    let secretData := hexEncode secretKey
    let jti ← step (Call.AES256Encrypt secretData pfx) (fun i => g.AES256Encrypt i secretData pfx)
    let privateKey ← step (Call.PrivateKeyRawToKey signature.PrivKey signature.CipherKey)
      (fun i => g.PrivateKeyRawToKey i signature.PrivKey signature.CipherKey)
    let duration := minutes h.env.JWT_EXPIRED
    let t1 ← timeNow g.now
    let jwtIat := t1.UTC.Add (wrap64 (-duration))
    let t2 ← timeNow g.now
    let jwtExp := t2.Add duration
    let tokenPayload : JwtSignOption :=
      { SecretKey := signature.CipherKey
        Kid := signature.JweKey.CipherText
        PrivateKey := privateKey
        Aud := [aud]
        Iss := iss
        Sub := sub
        Jti := jti
        Iat := jwtIat
        Exp := jwtExp
        Claim := timestamp }
    let tokenData ← step (Call.JwtSign tokenPayload) (fun i => g.JwtSign i tokenPayload)
    h.redis.SetEx tokenKey duration tokenData
    return tokenData
  else
    let tokenData ← h.redis.Get tokenKey
    return tokenData

/-! ## Names used in the statements -/

/-- The namespace key of the secret and signature tiers. -/
def credentialKey (pfx : GoString) : GoString := pfx ++ lit ":credential"

/-- The key of the token tier. -/
def tokenKey (pfx : GoString) : GoString := pfx ++ lit ":token"

/-- The hash field of the secret tier. -/
def certificateField : GoString := lit "certificate_metadata"

/-- The hash field of the signature tier. -/
def signatureField : GoString := lit "signature_metadata"

/-- The trace entry of a call that raised no error. -/
def done (c : Call) : Event := ⟨c, none⟩

/-- Cache writes, attempted or done. -/
def isWrite : Call → Bool
  | Call.HSetEx _ _ _ _ => true
  | Call.SetEx _ _ _ => true
  | _ => false

/-- Writes of the secret tier of a prefix. -/
def isSecretWrite (pfx : GoString) : Call → Bool
  | Call.HSetEx k _ f _ => decide (k = credentialKey pfx ∧ f = certificateField)
  | _ => false

/-- Writes of the signature tier of a prefix. -/
def isSignatureWrite (pfx : GoString) : Call → Bool
  | Call.HSetEx k _ f _ => decide (k = credentialKey pfx ∧ f = signatureField)
  | _ => false

/-- Writes of the token tier of a prefix. -/
def isTokenWrite (pfx : GoString) : Call → Bool
  | Call.SetEx k _ _ => decide (k = tokenKey pfx)
  | _ => false

/-- The calls `createSecret` can make for a prefix. -/
def secretCall (pfx : GoString) : Call → Bool
  | Call.HExists k f => decide (k = credentialKey pfx ∧ f = certificateField)
  | Call.HGet k f => decide (k = credentialKey pfx ∧ f = certificateField)
  | Call.HSetEx k _ f _ => decide (k = credentialKey pfx ∧ f = certificateField)
  | Call.Now => true
  | Call.SHA512Sign _ => true
  | Call.AES256Encrypt _ _ => true
  | Call.GeneratePrivateKey _ => true
  | Call.PrivateKeyRawToKey _ _ => true
  | Call.MarshalSecret _ => true
  | Call.UnmarshalSecret _ => true
  | _ => false

/-- The calls `createSignature` can make for a prefix, those of `createSecret`
included. -/
def signatureCall (pfx : GoString) : Call → Bool
  | Call.HExists k f => decide (k = credentialKey pfx ∧ (f = certificateField ∨ f = signatureField))
  | Call.HGet k f => decide (k = credentialKey pfx ∧ (f = certificateField ∨ f = signatureField))
  | Call.HSetEx k _ f _ =>
    decide (k = credentialKey pfx ∧ (f = certificateField ∨ f = signatureField))
  | Call.Exists _ => false
  | Call.Get _ => false
  | Call.SetEx _ _ _ => false
  | Call.JwtSign _ => false
  | _ => true

/-- The calls `createSignature` makes when the signature tier is cached. -/
def signatureRead (pfx : GoString) : Call → Bool
  | Call.HExists k f => decide (k = credentialKey pfx ∧ f = signatureField)
  | Call.HGet k f => decide (k = credentialKey pfx ∧ f = signatureField)
  | Call.UnmarshalSignature _ => true
  | _ => false

/-- No entry of the trace raised an error. -/
def Quiet (evs : List Event) : Prop := ∀ x ∈ evs, x.err = none

/-- The trace of a routine that stops at the first error and returns it: no
step but the last raised an error, and the routine returns error `e` exactly
when the last step raised `e`. -/
def FirstError {α : Type} (evs : List Event) (r : Res α) : Prop :=
  Quiet evs.dropLast ∧
  match r with
  | Res.error e => evs.getLast?.map Event.err = some (some e)
  | _ => Quiet evs

/-- Every call of the trace is of kind `P`. -/
def AllCalls (P : Call → Bool) (evs : List Event) : Prop := ∀ x ∈ evs, P x.call = true

/-- No call of the trace is of kind `P`. -/
def NoCalls (P : Call → Bool) (evs : List Event) : Prop := ∀ x ∈ evs, P x.call = false

/-- The cache writes of a trace, in order. -/
def writes (evs : List Event) : List Event := evs.filter (fun x => isWrite x.call)

/-- The outcome of running `m` from `w` satisfies `Q`. -/
def wp {α : Type} (m : M α) (Q : Res α → World → Prop) (w : World) : Prop :=
  Q (m w).1 (m w).2

/-- The payloads handed to the token codec, in trace order. -/
def payloads : List Event → List JwtSignOption
  | [] => []
  | ⟨Call.JwtSign o, _⟩ :: r => o :: payloads r
  | _ :: r => payloads r

/-- The claim set that `Sign` builds from a signature record, the three slices,
the token identifier, the decoded private key and three clock readings. -/
def claimSet (g : Globals) (h : jsonWebToken) (sig : SignatureMetadata)
    (aud iss sub jti : GoString) (pk : PrivateKey) (t0 t1 t2 : Time) : JwtSignOption :=
  { SecretKey := sig.CipherKey
    Kid := sig.JweKey.CipherText
    PrivateKey := pk
    Aud := [aud]
    Iss := iss
    Sub := sub
    Jti := jti
    Iat := t1.UTC.Add (wrap64 (-(minutes h.env.JWT_EXPIRED)))
    Exp := t2.Add (minutes h.env.JWT_EXPIRED)
    Claim := g.Format t0 (lit "2006/01/02 15:04:05") }

/-! ## A concrete instance

Small computable collaborators, used to evaluate the routines on concrete
inputs. -/

/-- One field of the instance's serializer: every byte is preceded by `1`. -/
def encodeField : GoString → GoString
  | [] => []
  | b :: bs => 1 :: b :: encodeField bs

/-- The instance's serializer: fields in order, each closed by `0`. -/
def encodeFields : List GoString → GoString
  | [] => []
  | f :: fs => encodeField f ++ 0 :: encodeFields fs

/-- Reads one field and returns it with the bytes after its closing `0`. -/
def decodeField : GoString → GoString × GoString
  | a :: b :: rest =>
    if a = 1 then (b :: (decodeField rest).1, (decodeField rest).2) else ([], b :: rest)
  | _ => ([], [])

/-- Reads `n` fields. -/
def decodeFields : Nat → GoString → List GoString
  | 0, _ => []
  | n + 1, bs => (decodeField bs).1 :: decodeFields n (decodeField bs).2

def toyKey : PrivateKey := ⟨⟨3233, 17⟩, 2753⟩

/-- Collaborators that always succeed, except that the body `chan` does not
serialize.  The cipher's output depends on both of its arguments. -/
def toyGlobals : Globals where
  now := fun i => ⟨1700000000000000000 + i, Location.Local⟩
  Format := fun t _ => fmtInt t.unixNano
  sha512 := fun b => b.reverse
  SHA512Sign := fun _ s => Except.ok s
  AES256Encrypt := fun _ k t => Except.ok (k ++ t)
  GeneratePrivateKey := fun _ pw => Except.ok (lit "rsa" ++ pw.take 2)
  PrivateKeyRawToKey := fun _ _ _ => Except.ok toyKey
  PublicKeyToRaw := fun pub => fmtInt pub.N
  MarshalSecret := fun _ r => Except.ok (encodeFields [r.PrivKey, r.PubKey, r.CipherKey])
  MarshalSignature := fun _ r => Except.ok (encodeFields
    [r.PrivKey, r.SigKey, r.CipherKey, r.JwkKey.raw, r.JweKey.CipherText, r.JweKey.rest])
  MarshalBody := fun _ b => if b = lit "chan" then Except.error (Error.failure 1) else Except.ok b
  UnmarshalSecret := fun _ bs =>
    match decodeFields 3 bs with
    | [a, b, c] => Except.ok ⟨a, b, c⟩
    | _ => Except.error (Error.failure 2)
  UnmarshalSignature := fun _ bs =>
    match decodeFields 6 bs with
    | [a, b, c, d, e, f] => Except.ok ⟨a, b, c, ⟨d⟩, ⟨e, f⟩⟩
    | _ => Except.error (Error.failure 2)
  SignPKCS1v15 := fun _ _ hashed => Except.ok ((hashed ++ List.replicate 32 171).take 32)
  VerifyPKCS1v15 := fun _ _ sig => if sig.length = 32 then none else some (Error.failure 3)
  ExportJsonWebKey := fun _ _ => Except.ok ⟨⟨lit "jwk"⟩⟩
  JweEncrypt := fun _ _ text => Except.ok (lit "cek", ⟨text.take 4, []⟩)
  JwtSign := fun _ o => Except.ok (lit "jwt." ++ o.Jti)

/-- An issuer with a 15 minute TTL and a cache that never fails. -/
def toyToken : jsonWebToken := ⟨⟨lit "master", 15⟩, ⟨fun _ => none⟩⟩

/-- The state with an empty cache and an empty trace. -/
def emptyWorld : World := ⟨⟨[], []⟩, 0, []⟩

/-- The toy collaborators with a token codec that is down for the first thirty
steps. -/
def toyCodecDown : Globals :=
  { toyGlobals with
    JwtSign := fun i o =>
      if i < 30 then Except.error (Error.failure 4) else toyGlobals.JwtSign i o }

/-- The state after the toy issuer derived the signature tier of prefix `t1`:
secret and signature are cached, the token is not. -/
def signedWorld : World :=
  (createSignature toyGlobals toyToken (lit "t1") (lit "body") emptyWorld).2

/-- The state in which only the signature tier of prefix `t1` is cached, holding
record `r` as the toy serializer writes it. -/
def cachedWorld (r : SignatureMetadata) : World :=
  ⟨⟨[((credentialKey (lit "t1"), signatureField),
      ⟨encodeFields [r.PrivKey, r.SigKey, r.CipherKey, r.JwkKey.raw, r.JweKey.CipherText,
        r.JweKey.rest], 900000000000⟩)], []⟩, 0, []⟩

/-- The toy collaborators with a clock that stands still. -/
def toyFrozen : Globals :=
  { toyGlobals with now := fun _ => ⟨1700000000000000000, Location.Local⟩ }

/-- The toy collaborators with a key decoder that checks its password: the raw
key has to start with it. -/
def toyStrict : Globals :=
  { toyGlobals with
    PrivateKeyRawToKey := fun _ raw pw =>
      if pw.isPrefixOf raw then Except.ok toyKey else Except.error (Error.failure 5) }

/-- A signature record with a 64-byte `SigKey`, whose private key is sealed
under its cipher key `cipher-key-A`. -/
def recordA : SignatureMetadata :=
  ⟨lit "cipher-key-A:rsa", hexEncode (List.replicate 32 171), lit "cipher-key-A", ⟨lit "jwk"⟩,
    ⟨lit "kid", []⟩⟩

/-- A signature record with the `SigKey` of `recordA`, whose private key is
sealed under another cipher key, `cipher-key-B`. -/
def recordB : SignatureMetadata :=
  ⟨lit "cipher-key-B:rsa", hexEncode (List.replicate 32 171), lit "cipher-key-B", ⟨lit "jwk"⟩,
    ⟨lit "kid", []⟩⟩

/-- A signature record with a 55-byte `SigKey`. -/
def shortRecord : SignatureMetadata :=
  ⟨lit "rsama", List.replicate 55 97, lit "cipher-key-A", ⟨lit "jwk"⟩, ⟨lit "kid", []⟩⟩

/-- Key-pair generation. -/
def isGenerate : Call → Bool
  | Call.GeneratePrivateKey _ => true
  | _ => false

/-- Calls that derive new lower-tier material: key-pair generation and the
signing of a body. -/
def isDerive : Call → Bool
  | Call.GeneratePrivateKey _ => true
  | Call.SignPKCS1v15 _ _ => true
  | _ => false

/-! ## Reasoning rules -/

theorem wp_bind {α β : Type} (m : M α) (f : α → M β) (Q : Res β → World → Prop) (w : World) :
    wp (m >>= f) Q w ↔
      wp m (fun r w1 => match r with
        | Res.ok a => wp (f a) Q w1
        | Res.error e => Q (Res.error e) w1
        | Res.panic => Q Res.panic w1) w := by
  show wp (M.bind m f) Q w ↔ _
  unfold wp M.bind
  rcases hm : m w with ⟨r, w1⟩
  cases r <;> simp

theorem wp_pure {α : Type} (a : α) (Q : Res α → World → Prop) (w : World) :
    wp (pure a : M α) Q w ↔ Q (Res.ok a) w := Iff.rfl

theorem wp_ite {α : Type} (c : Prop) [Decidable c] (m1 m2 : M α) (Q : Res α → World → Prop)
    (w : World) : wp (if c then m1 else m2) Q w ↔ (c → wp m1 Q w) ∧ (¬ c → wp m2 Q w) := by
  by_cases hc : c <;> simp [hc]

theorem wp_of_eq {α : Type} {m : M α} {w w1 : World} {r : Res α} (h : m w = (r, w1))
    (Q : Res α → World → Prop) : wp m Q w ↔ Q r w1 := by
  unfold wp
  rw [h]

theorem wp_mono {α : Type} {m : M α} {w : World} {P Q : Res α → World → Prop}
    (hP : wp m P w) (hPQ : ∀ r w1, P r w1 → Q r w1) : wp m Q w :=
  hPQ _ _ hP

theorem wp_step {α : Type} (c : Call) (ans : Nat → Except Error α) (Q : Res α → World → Prop)
    (w : World) : wp (step c ans) Q w ↔
      (∀ a, ans w.tick = Except.ok a → Q (Res.ok a) (w.record c none)) ∧
      (∀ e, ans w.tick = Except.error e → Q (Res.error e) (w.record c (some e))) := by
  unfold wp step
  cases h : ans w.tick <;> simp

theorem wp_check (c : Call) (ans : Option Error) (Q : Res Unit → World → Prop) (w : World) :
    wp (check c ans) Q w ↔
      (ans = none → Q (Res.ok ()) (w.record c none)) ∧
      (∀ e, ans = some e → Q (Res.error e) (w.record c (some e))) := by
  unfold wp check
  cases ans <;> simp

theorem wp_timeNow (clock : Nat → Time) (Q : Res Time → World → Prop) (w : World) :
    wp (timeNow clock) Q w ↔ Q (Res.ok (clock w.tick)) (w.record Call.Now none) := Iff.rfl

theorem wp_sliceM (s : GoString) (lo hi : Nat) (Q : Res GoString → World → Prop) (w : World) :
    wp (sliceM s lo hi) Q w ↔
      (∀ r, slice s lo hi = some r → Q (Res.ok r) w) ∧ (slice s lo hi = none → Q Res.panic w) := by
  unfold wp sliceM
  cases h : slice s lo hi <;> simp

theorem wp_HExists (r : Redis) (k f : GoString) (Q : Res Bool → World → Prop) (w : World) :
    wp (r.HExists k f) Q w ↔
      (r.fault w.tick = none →
        Q (Res.ok (assoc (k, f) w.cache.hashes).isSome) (w.record (Call.HExists k f) none)) ∧
      (∀ e, r.fault w.tick = some e → Q (Res.error e) (w.record (Call.HExists k f) (some e))) := by
  unfold wp Redis.HExists
  cases h : r.fault w.tick <;> simp

theorem wp_HGet (r : Redis) (k f : GoString) (Q : Res GoString → World → Prop) (w : World) :
    wp (r.HGet k f) Q w ↔
      (∀ en, r.fault w.tick = none → assoc (k, f) w.cache.hashes = some en →
        Q (Res.ok en.value) (w.record (Call.HGet k f) none)) ∧
      (r.fault w.tick = none → assoc (k, f) w.cache.hashes = none →
        Q (Res.error Error.redisNil) (w.record (Call.HGet k f) (some Error.redisNil))) ∧
      (∀ e, r.fault w.tick = some e → Q (Res.error e) (w.record (Call.HGet k f) (some e))) := by
  unfold wp Redis.HGet
  cases h : r.fault w.tick <;> cases h2 : assoc (k, f) w.cache.hashes <;> simp

theorem wp_HSetEx (r : Redis) (k : GoString) (x : Int) (f v : GoString)
    (Q : Res Unit → World → Prop) (w : World) :
    wp (r.HSetEx k x f v) Q w ↔
      (r.fault w.tick = none →
        Q (Res.ok ()) ({ w with cache := { w.cache with
          hashes := put (k, f) ⟨v, x⟩ w.cache.hashes } }.record (Call.HSetEx k x f v) none)) ∧
      (∀ e, r.fault w.tick = some e → Q (Res.error e) (w.record (Call.HSetEx k x f v) (some e))) := by
  unfold wp Redis.HSetEx
  cases h : r.fault w.tick <;> simp

theorem wp_Exists (r : Redis) (k : GoString) (Q : Res Int → World → Prop) (w : World) :
    wp (r.Exists k) Q w ↔
      (r.fault w.tick = none →
        Q (Res.ok (if (assoc k w.cache.strings).isSome then 1 else 0))
          (w.record (Call.Exists k) none)) ∧
      (∀ e, r.fault w.tick = some e → Q (Res.error e) (w.record (Call.Exists k) (some e))) := by
  unfold wp Redis.Exists
  cases h : r.fault w.tick <;> simp

theorem wp_Get (r : Redis) (k : GoString) (Q : Res GoString → World → Prop) (w : World) :
    wp (r.Get k) Q w ↔
      (∀ en, r.fault w.tick = none → assoc k w.cache.strings = some en →
        Q (Res.ok en.value) (w.record (Call.Get k) none)) ∧
      (r.fault w.tick = none → assoc k w.cache.strings = none →
        Q (Res.error Error.redisNil) (w.record (Call.Get k) (some Error.redisNil))) ∧
      (∀ e, r.fault w.tick = some e → Q (Res.error e) (w.record (Call.Get k) (some e))) := by
  unfold wp Redis.Get
  cases h : r.fault w.tick <;> cases h2 : assoc k w.cache.strings <;> simp

theorem wp_SetEx (r : Redis) (k : GoString) (x : Int) (v : GoString)
    (Q : Res Unit → World → Prop) (w : World) :
    wp (r.SetEx k x v) Q w ↔
      (r.fault w.tick = none →
        Q (Res.ok ()) ({ w with cache := { w.cache with
          strings := put k ⟨v, x⟩ w.cache.strings } }.record (Call.SetEx k x v) none)) ∧
      (∀ e, r.fault w.tick = some e → Q (Res.error e) (w.record (Call.SetEx k x v) (some e))) := by
  unfold wp Redis.SetEx
  cases h : r.fault w.tick <;> simp

@[simp] theorem record_log (w : World) (c : Call) (e : Option Error) :
    (w.record c e).log = w.log ++ [⟨c, e⟩] := rfl

@[simp] theorem record_tick (w : World) (c : Call) (e : Option Error) :
    (w.record c e).tick = w.tick + 1 := rfl

@[simp] theorem record_cache (w : World) (c : Call) (e : Option Error) :
    (w.record c e).cache = w.cache := rfl

theorem assoc_put_self {κ ν : Type} [DecidableEq κ] (k : κ) (v : ν) (l : List (κ × ν)) :
    assoc k (put k v l) = some v := by
  simp [put, assoc]

theorem assoc_filter_ne {κ ν : Type} [DecidableEq κ] (k k' : κ) (l : List (κ × ν))
    (hk : k ≠ k') : assoc k (l.filter (fun x => !decide (x.1 = k'))) = assoc k l := by
  induction l with
  | nil => rfl
  | cons x r ih =>
    obtain ⟨a, b⟩ := x
    by_cases ha : a = k'
    · simp [List.filter, assoc, ha, hk, Ne.symm hk, ih]
    · by_cases hak : a = k <;> simp [List.filter, assoc, ha, hak, hk, Ne.symm hk, ih]

theorem assoc_put_ne {κ ν : Type} [DecidableEq κ] (k k' : κ) (v : ν) (l : List (κ × ν))
    (hk : k ≠ k') : assoc k (put k' v l) = assoc k l := by
  unfold put
  rw [assoc, if_neg (Ne.symm hk)]
  exact assoc_filter_ne k k' l hk

theorem fields_ne : certificateField ≠ signatureField := by decide

theorem Quiet_nil : Quiet [] := by simp [Quiet]

theorem Quiet_cons (x : Event) (l : List Event) : Quiet (x :: l) ↔ x.err = none ∧ Quiet l := by
  simp [Quiet]

theorem Quiet_append (a b : List Event) : Quiet (a ++ b) ↔ Quiet a ∧ Quiet b := by
  simp [Quiet, or_imp, forall_and]

theorem AllCalls_nil (P : Call → Bool) : AllCalls P [] := by simp [AllCalls]

theorem AllCalls_cons (P : Call → Bool) (x : Event) (l : List Event) :
    AllCalls P (x :: l) ↔ P x.call = true ∧ AllCalls P l := by
  simp [AllCalls]

theorem AllCalls_append (P : Call → Bool) (a b : List Event) :
    AllCalls P (a ++ b) ↔ AllCalls P a ∧ AllCalls P b := by
  simp [AllCalls, or_imp, forall_and]

theorem NoCalls_nil (P : Call → Bool) : NoCalls P [] := by simp [NoCalls]

theorem NoCalls_cons (P : Call → Bool) (x : Event) (l : List Event) :
    NoCalls P (x :: l) ↔ P x.call = false ∧ NoCalls P l := by
  simp [NoCalls]

theorem NoCalls_append (P : Call → Bool) (a b : List Event) :
    NoCalls P (a ++ b) ↔ NoCalls P a ∧ NoCalls P b := by
  simp [NoCalls, or_imp, forall_and]

theorem NoCalls_dropLast (P : Call → Bool) (l : List Event) (h : NoCalls P l) :
    NoCalls P l.dropLast :=
  fun x hx => h x (List.mem_of_mem_dropLast hx)

theorem dropLast_cons_of_ne_nil {α : Type} (a : α) (l : List α) (hl : l ≠ []) :
    (a :: l).dropLast = a :: l.dropLast := by
  cases l with
  | nil => exact absurd rfl hl
  | cons b r => rfl

theorem getLast?_cons_of_ne_nil {α : Type} (a : α) (l : List α) (hl : l ≠ []) :
    (a :: l).getLast? = l.getLast? := by
  cases l with
  | nil => exact absurd rfl hl
  | cons b r => simp [List.getLast?]

theorem getLast?_append_of_ne_nil {α : Type} (a l : List α) (hl : l ≠ []) :
    (a ++ l).getLast? = l.getLast? := by
  induction a with
  | nil => rfl
  | cons x r ih =>
    rw [List.cons_append, getLast?_cons_of_ne_nil _ _ (by simp [hl]), ih]

theorem FirstError_cons_iff {α : Type} (x : Event) (evs : List Event) (r : Res α)
    (hl : evs ≠ []) : FirstError (x :: evs) r ↔ x.err = none ∧ FirstError evs r := by
  unfold FirstError
  rw [dropLast_cons_of_ne_nil _ _ hl, getLast?_cons_of_ne_nil _ _ hl]
  cases r <;> simp only [Quiet_cons] <;> tauto

theorem FirstError_append_iff {α : Type} (pre evs : List Event) (r : Res α)
    (hl : evs ≠ []) : FirstError (pre ++ evs) r ↔ Quiet pre ∧ FirstError evs r := by
  unfold FirstError
  rw [List.dropLast_append_of_ne_nil _ hl, getLast?_append_of_ne_nil _ _ hl]
  cases r <;> simp only [Quiet_append] <;> tauto

theorem FirstError_cons {α : Type} (x : Event) (evs : List Event) (r : Res α)
    (hx : x.err = none) (h : FirstError evs r) : FirstError (x :: evs) r := by
  by_cases hl : evs = []
  · subst hl
    cases r <;> simp_all [FirstError, Quiet]
  · exact (FirstError_cons_iff x evs r hl).2 ⟨hx, h⟩

theorem FirstError_single {α : Type} (x : Event) (r : Res α) :
    FirstError [x] r ↔ match r with
      | Res.error e => x.err = some e
      | _ => x.err = none := by
  cases r <;> simp [FirstError, Quiet]

theorem writes_nil : writes [] = [] := rfl

theorem writes_cons (x : Event) (l : List Event) :
    writes (x :: l) = if isWrite x.call = true then x :: writes l else writes l := by
  simp only [writes, List.filter_cons]

theorem writes_append (a b : List Event) : writes (a ++ b) = writes a ++ writes b := by
  simp [writes]

theorem secretCall_signatureCall (p : GoString) (c : Call) (h : secretCall p c = true) :
    signatureCall p c = true := by
  cases c <;> simp_all [secretCall, signatureCall]

theorem secretCall_not_signatureWrite (p : GoString) (c : Call) (h : secretCall p c = true) :
    isSignatureWrite p c = false := by
  cases c <;> simp_all [secretCall, isSignatureWrite]
  exact fields_ne

/-- What a run of `createSecret` leaves behind: its trace stops at the first
error, holds only secret-tier calls and writes at most once, as its last step;
the cache changes only at the secret tier and only on success. -/
theorem createSecret_spec (g : Globals) (h : jsonWebToken) (p : GoString) (w : World) :
    wp (createSecret g h p) (fun r w1 => ∃ evs,
      w1.log = w.log ++ evs ∧ FirstError evs r
      ∧ AllCalls (secretCall p) evs
      ∧ NoCalls isWrite evs.dropLast
      ∧ w1.cache.strings = w.cache.strings
      ∧ (∀ kf, kf ≠ (credentialKey p, certificateField) →
          assoc kf w1.cache.hashes = assoc kf w.cache.hashes)
      ∧ ((∀ a, r ≠ Res.ok a) → w1.cache = w.cache)
      ∧ (∀ a, r = Res.ok a → assoc (credentialKey p, certificateField) w.cache.hashes = none →
          ∃ v, writes evs = [done (Call.HSetEx (credentialKey p) (minutes h.env.JWT_EXPIRED)
                  certificateField v)]
            ∧ assoc (credentialKey p, certificateField) w1.cache.hashes
              = some ⟨v, minutes h.env.JWT_EXPIRED⟩)) w := by
  simp only [createSecret, wp_bind, wp_pure, wp_ite, wp_step, wp_timeNow, wp_HExists, wp_HGet,
    wp_HSetEx, ← credentialKey.eq_1, ← certificateField.eq_1, record_tick, record_log, record_cache]
  repeat' (first | intro _ | apply And.intro)
  all_goals simp only [List.append_assoc, List.singleton_append, List.cons_append,
    List.nil_append, List.append_cancel_left_eq, exists_eq_left']
  all_goals simp only [FirstError_cons_iff, FirstError_single, AllCalls_cons, AllCalls_nil,
    NoCalls_cons, NoCalls_nil, List.dropLast, writes_cons, writes_nil, secretCall, isWrite, done,
    ne_eq, not_false_eq_true, reduceCtorEq, List.cons_ne_nil, and_self, and_true, true_and,
    decide_True, decide_eq_true_eq, imp_self, implies_true, forall_const, not_true_eq_false,
    false_implies, IsEmpty.forall_iff, Res.ok.injEq, if_true, if_false, Bool.false_eq_true,
    List.cons.injEq, Event.mk.injEq, Call.HSetEx.injEq, exists_eq_left', exists_eq', exists_eq,
    assoc_put_self, Option.some.injEq, Entry.mk.injEq, forall_eq', not_exists, exists_false,
    not_true, forall_eq]
  all_goals first
    | exact fun kf hkf => assoc_put_ne _ _ _ _ hkf
    | (intro hc; simp_all)

/-- What a run of `createSignature` leaves behind. -/
theorem createSignature_spec (g : Globals) (h : jsonWebToken) (p : GoString) (b : Body)
    (w : World) :
    wp (createSignature g h p b) (fun r w1 => ∃ evs,
      w1.log = w.log ++ evs ∧ FirstError evs r
      ∧ AllCalls (signatureCall p) evs
      ∧ NoCalls (isSignatureWrite p) evs.dropLast
      ∧ w1.cache.strings = w.cache.strings
      ∧ ((∀ a, r ≠ Res.ok a) →
          assoc (credentialKey p, signatureField) w1.cache.hashes
            = assoc (credentialKey p, signatureField) w.cache.hashes)
      ∧ (∀ a, r = Res.ok a →
          assoc (credentialKey p, certificateField) w.cache.hashes = none →
          assoc (credentialKey p, signatureField) w.cache.hashes = none →
          ∃ v1 v2, writes evs
              = [done (Call.HSetEx (credentialKey p) (minutes h.env.JWT_EXPIRED)
                  certificateField v1),
                done (Call.HSetEx (credentialKey p) (minutes h.env.JWT_EXPIRED)
                  signatureField v2)]
            ∧ assoc (credentialKey p, certificateField) w1.cache.hashes
              = some ⟨v1, minutes h.env.JWT_EXPIRED⟩
            ∧ assoc (credentialKey p, signatureField) w1.cache.hashes
              = some ⟨v2, minutes h.env.JWT_EXPIRED⟩)) w := by
  simp only [createSignature, wp_bind, wp_pure, wp_ite, wp_step, wp_check, wp_HExists, wp_HGet,
    wp_HSetEx, ← credentialKey.eq_1, ← signatureField.eq_1, record_tick, record_log, record_cache]
  refine ⟨fun hf => ⟨fun hmiss => ?_, fun hhit => ?_⟩, fun e he => ?_⟩
  · apply wp_mono (createSecret_spec g h p _)
    rintro r1 w2 ⟨evs1, hlog, hFE, hsc, -, hstr, hother, hnonok, hfresh⟩
    have hsc1 : AllCalls (signatureCall p) evs1 :=
      fun x hx => secretCall_signatureCall p _ (hsc x hx)
    have hsc2 : NoCalls (isSignatureWrite p) evs1 :=
      fun x hx => secretCall_not_signatureWrite p _ (hsc x hx)
    have hsig := hother (credentialKey p, signatureField)
      (fun hc => fields_ne (congrArg Prod.snd hc).symm)
    have hne : (credentialKey p, certificateField) ≠ (credentialKey p, signatureField) :=
      fun hc => fields_ne (congrArg Prod.snd hc)
    simp only [record_log, record_cache] at hlog hstr hsig hfresh hnonok
    cases r1 with
    | ok sk =>
      have hq : Quiet evs1 := hFE.2
      have hfresh2 := hfresh sk rfl
      simp only []
      repeat' (first | intro _ | apply And.intro)
      all_goals simp only [hlog, record_log, List.append_assoc, List.singleton_append,
        List.cons_append, List.nil_append, List.append_cancel_left_eq, exists_eq_left']
      all_goals simp only [FirstError_cons_iff, FirstError_append_iff, FirstError_single,
        AllCalls_cons, AllCalls_append, AllCalls_nil, hsc1, hsc2, hq, hstr, hsig,
        NoCalls_cons, NoCalls_append, NoCalls_nil, dropLast_cons_of_ne_nil,
        List.dropLast_append_of_ne_nil, List.dropLast, writes_cons, writes_append, writes_nil,
        signatureCall, isSignatureWrite, isWrite, done,
        ne_eq, not_false_eq_true, reduceCtorEq, List.cons_ne_nil, List.append_eq_nil, and_false,
        and_self, and_true, true_and, or_true, true_or,
        decide_True, decide_eq_true_eq, imp_self, implies_true, forall_const, not_true_eq_false,
        false_implies, IsEmpty.forall_iff, Res.ok.injEq, if_true, if_false, Bool.false_eq_true,
        List.cons.injEq, Event.mk.injEq, Call.HSetEx.injEq, exists_eq_left', exists_eq', exists_eq,
        assoc_put_self, Option.some.injEq, Entry.mk.injEq, forall_eq', not_exists, exists_false,
        not_true, forall_eq, Bool.decide_eq_true, Bool.decide_and, Bool.and_self, Bool.or_true,
        Bool.true_or, Bool.and_true]
      intro ha1 ha2
      obtain ⟨v, hw, hv⟩ := hfresh2 ha1
      refine ⟨v, _, ?_, ?_, rfl⟩
      · rw [hw]
        rfl
      · rw [assoc_put_ne _ _ _ _ hne]
        exact hv
    | error e =>
      exact ⟨done (Call.HExists (credentialKey p) signatureField) :: evs1,
        by simp only [hlog, done, List.append_assoc, List.singleton_append],
        FirstError_cons _ _ _ rfl hFE,
        (AllCalls_cons _ _ _).2 ⟨by simp [signatureCall, done], hsc1⟩,
        NoCalls_dropLast _ _ ((NoCalls_cons _ _ _).2 ⟨rfl, hsc2⟩),
        hstr, fun _ => hsig, fun a ha => by cases ha⟩
    | panic =>
      exact ⟨done (Call.HExists (credentialKey p) signatureField) :: evs1,
        by simp only [hlog, done, List.append_assoc, List.singleton_append],
        FirstError_cons _ _ _ rfl hFE,
        (AllCalls_cons _ _ _).2 ⟨by simp [signatureCall, done], hsc1⟩,
        NoCalls_dropLast _ _ ((NoCalls_cons _ _ _).2 ⟨rfl, hsc2⟩),
        hstr, fun _ => hsig, fun a ha => by cases ha⟩
  · repeat' (first | intro _ | apply And.intro)
    all_goals simp only [record_log, List.append_assoc, List.singleton_append, List.cons_append, List.nil_append, List.append_cancel_left_eq, exists_eq_left']
    all_goals simp_all [FirstError, Quiet, AllCalls, NoCalls, writes, signatureCall, isSignatureWrite, isWrite]
  · simp [FirstError, Quiet, signatureCall, isSignatureWrite, isWrite, AllCalls, NoCalls]
theorem signatureCall_not_tokenWrite (p : GoString) (c : Call) (h : signatureCall p c = true) :
    isTokenWrite p c = false := by
  cases c <;> simp_all [signatureCall, isTokenWrite]

theorem signatureCall_writes (p : GoString) (evs : List Event)
    (h : AllCalls (signatureCall p) evs) : NoCalls (isTokenWrite p) evs :=
  fun x hx => signatureCall_not_tokenWrite p _ (h x hx)

/-- What a run of `Sign` leaves behind. -/
theorem Sign_spec (g : Globals) (h : jsonWebToken) (p : GoString) (b : Body) (w : World) :
    wp (Sign g h p b) (fun r w1 => ∃ evs,
      w1.log = w.log ++ evs ∧ FirstError evs r
      ∧ NoCalls (isTokenWrite p) evs.dropLast
      ∧ ((∀ a, r ≠ Res.ok a) →
          assoc (tokenKey p) w1.cache.strings = assoc (tokenKey p) w.cache.strings)
      ∧ (∀ t, r = Res.ok t → ∃ d, assoc (tokenKey p) w1.cache.strings = some ⟨t, d⟩)
      ∧ (∀ t, r = Res.ok t →
          assoc (credentialKey p, certificateField) w.cache.hashes = none →
          assoc (credentialKey p, signatureField) w.cache.hashes = none →
          assoc (tokenKey p) w.cache.strings = none →
          ∃ v1 v2, writes evs
              = [done (Call.HSetEx (credentialKey p) (minutes h.env.JWT_EXPIRED)
                  certificateField v1),
                done (Call.HSetEx (credentialKey p) (minutes h.env.JWT_EXPIRED)
                  signatureField v2),
                done (Call.SetEx (tokenKey p) (minutes h.env.JWT_EXPIRED) t)]
            ∧ assoc (credentialKey p, certificateField) w1.cache.hashes
              = some ⟨v1, minutes h.env.JWT_EXPIRED⟩
            ∧ assoc (credentialKey p, signatureField) w1.cache.hashes
              = some ⟨v2, minutes h.env.JWT_EXPIRED⟩
            ∧ assoc (tokenKey p) w1.cache.strings
              = some ⟨t, minutes h.env.JWT_EXPIRED⟩)) w := by
  simp only [Sign, wp_bind, wp_pure, wp_ite, wp_step, wp_timeNow, wp_sliceM, wp_Exists, wp_Get,
    wp_SetEx, ← tokenKey.eq_1, record_tick, record_log, record_cache]
  refine ⟨fun hf => ⟨fun hmiss => ?_, fun hhit => ?_⟩, fun e he => ?_⟩
  · apply wp_mono (createSignature_spec g h p b _)
    rintro r1 w2 ⟨evs1, hlog, hFE, hsc, -, hstr, -, hfresh⟩
    have hsc1 : NoCalls (isTokenWrite p) evs1 := signatureCall_writes p _ hsc
    simp only [record_log, record_cache] at hlog hstr hfresh
    cases r1 with
    | ok sig =>
      have hq : Quiet evs1 := hFE.2
      have hfresh2 := hfresh sig rfl
      simp only []
      repeat' (first | intro _ | apply And.intro)
      all_goals simp only [hlog, record_log, List.append_assoc, List.singleton_append,
        List.cons_append, List.nil_append, List.append_cancel_left_eq, exists_eq_left']
      all_goals simp only [FirstError_cons_iff, FirstError_append_iff, FirstError_single,
        FirstError_cons, hsc1, hq, hstr,
        NoCalls_cons, NoCalls_append, NoCalls_nil, dropLast_cons_of_ne_nil,
        List.dropLast_append_of_ne_nil, List.dropLast, writes_cons, writes_append, writes_nil,
        isTokenWrite, isWrite, done,
        ne_eq, not_false_eq_true, reduceCtorEq, List.cons_ne_nil, List.append_eq_nil, and_false,
        and_self, and_true, true_and, or_true, true_or,
        decide_True, decide_eq_true_eq, imp_self, implies_true, forall_const, not_true_eq_false,
        false_implies, IsEmpty.forall_iff, Res.ok.injEq, if_true, if_false, Bool.false_eq_true,
        List.cons.injEq, Event.mk.injEq, Call.HSetEx.injEq, exists_eq_left', exists_eq', exists_eq,
        assoc_put_self, Option.some.injEq, Entry.mk.injEq, forall_eq', not_exists, exists_false,
        not_true, forall_eq, Bool.decide_eq_true, Bool.decide_and, Bool.and_self, Bool.or_true,
        Bool.true_or, Bool.and_true]
      intro ha1 ha2 _
      obtain ⟨v1, v2, hw, h1, h2⟩ := hfresh2 ha1 ha2
      refine ⟨v1, v2, ?_, h1, h2⟩
      rw [hw]
      rfl
    | error e =>
      exact ⟨done (Call.Exists (tokenKey p)) :: evs1,
        by simp only [hlog, done, List.append_assoc, List.singleton_append],
        FirstError_cons _ _ _ rfl hFE,
        NoCalls_dropLast _ _ ((NoCalls_cons _ _ _).2 ⟨rfl, hsc1⟩),
        (fun _ => by rw [hstr]), (fun a ha => by cases ha), (fun a ha => by cases ha)⟩
    | panic =>
      exact ⟨done (Call.Exists (tokenKey p)) :: evs1,
        by simp only [hlog, done, List.append_assoc, List.singleton_append],
        FirstError_cons _ _ _ rfl hFE,
        NoCalls_dropLast _ _ ((NoCalls_cons _ _ _).2 ⟨rfl, hsc1⟩),
        (fun _ => by rw [hstr]), (fun a ha => by cases ha), (fun a ha => by cases ha)⟩
  · repeat' (first | intro _ | apply And.intro)
    all_goals simp only [record_log, List.append_assoc, List.singleton_append, List.cons_append,
      List.nil_append, List.append_cancel_left_eq, exists_eq_left']
    all_goals simp_all [FirstError, Quiet, AllCalls, NoCalls, writes, isTokenWrite, isWrite]
    exact ⟨_, rfl⟩
  · simp [FirstError, Quiet, isTokenWrite, isWrite, AllCalls, NoCalls]
theorem NoCalls_mono (P Q : Call → Bool) (evs : List Event)
    (hPQ : ∀ c, Q c = true → P c = true) (h : NoCalls P evs) : NoCalls Q evs := by
  intro x hx
  have := h x hx
  cases hq : Q x.call
  · rfl
  · rw [hPQ _ hq] at this
    exact absurd this (by simp)

theorem isSecretWrite_isWrite (p : GoString) (c : Call) (h : isSecretWrite p c = true) :
    isWrite c = true := by
  cases c <;> simp_all [isSecretWrite, isWrite]

/-- C7: a `Sign` that starts with none of the three tier entries of the prefix
and returns a token has written the three tiers, in the order secret,
signature, token, at the keys of the prefix, each with the expiry
`JWT_EXPIRED` minutes, and the value at the token key is the returned token. -/
theorem Sign_persists_three_tiers_in_order (g : Globals) (h : jsonWebToken) (p : GoString)
    (b : Body) (w : World) (t : GoString)
    (hsecret : assoc (credentialKey p, certificateField) w.cache.hashes = none)
    (hsignature : assoc (credentialKey p, signatureField) w.cache.hashes = none)
    (htoken : assoc (tokenKey p) w.cache.strings = none)
    (hok : (Sign g h p b w).1 = Res.ok t) :
    ∃ evs v1 v2, (Sign g h p b w).2.log = w.log ++ evs
      ∧ Quiet evs
      ∧ writes evs
        = [done (Call.HSetEx (credentialKey p) (minutes h.env.JWT_EXPIRED) certificateField v1),
          done (Call.HSetEx (credentialKey p) (minutes h.env.JWT_EXPIRED) signatureField v2),
          done (Call.SetEx (tokenKey p) (minutes h.env.JWT_EXPIRED) t)]
      ∧ assoc (credentialKey p, certificateField) (Sign g h p b w).2.cache.hashes
        = some ⟨v1, minutes h.env.JWT_EXPIRED⟩
      ∧ assoc (credentialKey p, signatureField) (Sign g h p b w).2.cache.hashes
        = some ⟨v2, minutes h.env.JWT_EXPIRED⟩
      ∧ assoc (tokenKey p) (Sign g h p b w).2.cache.strings
        = some ⟨t, minutes h.env.JWT_EXPIRED⟩ := by
  obtain ⟨evs, hlog, hFE, -, -, -, hfresh⟩ := Sign_spec g h p b w
  obtain ⟨v1, v2, hw, h1, h2, h3⟩ := hfresh t hok hsecret hsignature htoken
  rw [hok] at hFE
  exact ⟨evs, v1, v2, hlog, hFE.2, hw, h1, h2, h3⟩

theorem Sign_persists_three_tiers_in_order_witness :
    ∃ evs v1 v2, (Sign toyGlobals toyToken (lit "t1") (lit "body") emptyWorld).2.log
        = emptyWorld.log ++ evs
      ∧ Quiet evs
      ∧ writes evs
        = [done (Call.HSetEx (credentialKey (lit "t1")) (minutes toyToken.env.JWT_EXPIRED)
            certificateField v1),
          done (Call.HSetEx (credentialKey (lit "t1")) (minutes toyToken.env.JWT_EXPIRED)
            signatureField v2),
          done (Call.SetEx (tokenKey (lit "t1")) (minutes toyToken.env.JWT_EXPIRED)
            (lit "jwt.616261626162616261623a616261626162616261623a616261626162616261623a3135t1"))]
      ∧ assoc (credentialKey (lit "t1"), certificateField)
          (Sign toyGlobals toyToken (lit "t1") (lit "body") emptyWorld).2.cache.hashes
        = some ⟨v1, minutes toyToken.env.JWT_EXPIRED⟩
      ∧ assoc (credentialKey (lit "t1"), signatureField)
          (Sign toyGlobals toyToken (lit "t1") (lit "body") emptyWorld).2.cache.hashes
        = some ⟨v2, minutes toyToken.env.JWT_EXPIRED⟩
      ∧ assoc (tokenKey (lit "t1"))
          (Sign toyGlobals toyToken (lit "t1") (lit "body") emptyWorld).2.cache.strings
        = some ⟨lit "jwt.616261626162616261623a616261626162616261623a616261626162616261623a3135t1",
            minutes toyToken.env.JWT_EXPIRED⟩ :=
  Sign_persists_three_tiers_in_order toyGlobals toyToken (lit "t1") (lit "body") emptyWorld
    (lit "jwt.616261626162616261623a616261626162616261623a616261626162616261623a3135t1")
    (by decide) (by decide) (by decide) (by decide)

/-- C1: after a `Sign` that returned a token, an immediately following `Sign`
for the same prefix, whatever the body, returns the same bytes; its trace is
the existence check and the read of the token key, and the cache is as it was. -/
theorem Sign_again_returns_cached_token (g : Globals) (h : jsonWebToken) (p : GoString)
    (b b' : Body) (w : World) (t : GoString)
    (hpos : 0 < h.env.JWT_EXPIRED)
    (hok : (Sign g h p b w).1 = Res.ok t)
    (hup : h.redis.fault (Sign g h p b w).2.tick = none
      ∧ h.redis.fault ((Sign g h p b w).2.tick + 1) = none) :
    Sign g h p b' (Sign g h p b w).2
      = (Res.ok t,
          { (Sign g h p b w).2 with
            tick := (Sign g h p b w).2.tick + 2
            log := (Sign g h p b w).2.log
              ++ [done (Call.Exists (tokenKey p)), done (Call.Get (tokenKey p))] }) := by
  have _ := hpos
  obtain ⟨evs, -, -, -, -, hcached, -⟩ := Sign_spec g h p b w
  obtain ⟨d, hd⟩ := hcached t hok
  generalize (Sign g h p b w).2 = w1 at hup hd ⊢
  have key : wp (Sign g h p b') (fun r w2 => (r, w2) = (Res.ok t,
      ({ w1 with tick := w1.tick + 2
                 log := w1.log ++ [done (Call.Exists (tokenKey p)), done (Call.Get (tokenKey p))] }
        : World))) w1 := by
    simp only [Sign, wp_bind, wp_pure, wp_ite, wp_Exists, wp_Get, ← tokenKey.eq_1]
    simp [hup.1, hup.2, hd, World.record, done]
  exact key

theorem Sign_again_returns_cached_token_witness :
    Sign toyGlobals toyToken (lit "t1") (lit "other body")
        (Sign toyGlobals toyToken (lit "t1") (lit "body") emptyWorld).2
      = (Res.ok (lit "jwt.616261626162616261623a616261626162616261623a616261626162616261623a3135t1"),
          { (Sign toyGlobals toyToken (lit "t1") (lit "body") emptyWorld).2 with
            tick := (Sign toyGlobals toyToken (lit "t1") (lit "body") emptyWorld).2.tick + 2
            log := (Sign toyGlobals toyToken (lit "t1") (lit "body") emptyWorld).2.log
              ++ [done (Call.Exists (tokenKey (lit "t1"))),
                done (Call.Get (tokenKey (lit "t1")))] }) :=
  Sign_again_returns_cached_token toyGlobals toyToken (lit "t1") (lit "body") (lit "other body")
    emptyWorld (lit "jwt.616261626162616261623a616261626162616261623a616261626162616261623a3135t1")
    (by decide) (by decide) (by decide)

theorem decodeField_encodeField (a rest : GoString) :
    decodeField (encodeField a ++ 0 :: rest) = (a, rest) := by
  induction a with
  | nil => cases rest <;> simp [encodeField, decodeField]
  | cons x a ih => simp [encodeField, decodeField, ih]

theorem toy_roundtrip (i j : Nat) (r : SecretMetadata) (bs : GoString)
    (hm : toyGlobals.MarshalSecret i r = Except.ok bs) :
    toyGlobals.UnmarshalSecret j bs = Except.ok r := by
  simp only [toyGlobals, Except.ok.injEq] at hm
  subst hm
  simp [toyGlobals, encodeFields, decodeFields, decodeField_encodeField]

theorem createSecret_persists_marshalled (g : Globals) (h : jsonWebToken) (p : GoString)
    (w : World) :
    wp (createSecret g h p) (fun r w1 => ∀ r1, r = Res.ok r1 →
      assoc (credentialKey p, certificateField) w.cache.hashes = none →
      ∃ i bs d, g.MarshalSecret i r1 = Except.ok bs
        ∧ assoc (credentialKey p, certificateField) w1.cache.hashes = some ⟨bs, d⟩) w := by
  simp only [createSecret, wp_bind, wp_pure, wp_ite, wp_step, wp_timeNow, wp_HExists, wp_HGet,
    wp_HSetEx, ← credentialKey.eq_1, ← certificateField.eq_1, record_tick, record_log, record_cache]
  repeat' (first | intro _ | apply And.intro)
  all_goals simp_all
  exact ⟨_, _, by assumption, _, assoc_put_self _ _ _⟩

/-- C6: when the secret tier is absent, the serializer round-trips and the
cache answers, a `createSecret` that returned a record is followed by a
`createSecret` that returns the same public key, cipher key and (encrypted)
private key, hence the same decoded key pair; the second call only checks,
reads and deserializes: no key pair is generated and nothing is written. -/
theorem createSecret_again_reads_same_record (g : Globals) (h : jsonWebToken) (p : GoString)
    (w : World) (r1 : SecretMetadata)
    (habsent : assoc (credentialKey p, certificateField) w.cache.hashes = none)
    (hround : ∀ i j r bs, g.MarshalSecret i r = Except.ok bs →
      g.UnmarshalSecret j bs = Except.ok r)
    (hok : (createSecret g h p w).1 = Res.ok r1)
    (hup : h.redis.fault (createSecret g h p w).2.tick = none
      ∧ h.redis.fault ((createSecret g h p w).2.tick + 1) = none) :
    ∃ r2 bs, createSecret g h p (createSecret g h p w).2
        = (Res.ok r2,
          { (createSecret g h p w).2 with
            tick := (createSecret g h p w).2.tick + 3
            log := (createSecret g h p w).2.log
              ++ [done (Call.HExists (credentialKey p) certificateField),
                done (Call.HGet (credentialKey p) certificateField),
                done (Call.UnmarshalSecret bs)] })
      ∧ r2.PubKey = r1.PubKey ∧ r2.CipherKey = r1.CipherKey ∧ r2.PrivKey = r1.PrivKey
      ∧ ∀ i, g.PrivateKeyRawToKey i r2.PrivKey r2.CipherKey
          = g.PrivateKeyRawToKey i r1.PrivKey r1.CipherKey := by
  obtain ⟨i, bs, d, hm, hd⟩ := createSecret_persists_marshalled g h p w r1 hok habsent
  generalize (createSecret g h p w).2 = w1 at hup hd ⊢
  have hun := hround i (w1.tick + 1 + 1) r1 bs hm
  refine ⟨r1, bs, ?_, rfl, rfl, rfl, fun _ => rfl⟩
  have key : wp (createSecret g h p) (fun r w2 => (r, w2) = (Res.ok r1,
      ({ w1 with tick := w1.tick + 3
                 log := w1.log ++ [done (Call.HExists (credentialKey p) certificateField),
                    done (Call.HGet (credentialKey p) certificateField),
                    done (Call.UnmarshalSecret bs)] } : World))) w1 := by
    simp only [createSecret, wp_bind, wp_pure, wp_ite, wp_step, wp_HExists, wp_HGet,
      ← credentialKey.eq_1, ← certificateField.eq_1, record_tick, record_log, record_cache]
    simp [hup.1, hup.2, hd, hun, World.record, done]
  exact key

theorem createSecret_again_reads_same_record_witness :
    ∃ r2 bs, createSecret toyGlobals toyToken (lit "t1")
          (createSecret toyGlobals toyToken (lit "t1") emptyWorld).2
        = (Res.ok r2,
          { (createSecret toyGlobals toyToken (lit "t1") emptyWorld).2 with
            tick := (createSecret toyGlobals toyToken (lit "t1") emptyWorld).2.tick + 3
            log := (createSecret toyGlobals toyToken (lit "t1") emptyWorld).2.log
              ++ [done (Call.HExists (credentialKey (lit "t1")) certificateField),
                done (Call.HGet (credentialKey (lit "t1")) certificateField),
                done (Call.UnmarshalSecret bs)] })
      ∧ r2.PubKey = lit "3233" ∧ r2.CipherKey = lit "master" ++ hexEncode (lit "1700000000000000001")
      ∧ r2.PrivKey = lit "rsama"
      ∧ ∀ i, toyGlobals.PrivateKeyRawToKey i r2.PrivKey r2.CipherKey
          = toyGlobals.PrivateKeyRawToKey i (lit "rsama")
              (lit "master" ++ hexEncode (lit "1700000000000000001")) :=
  createSecret_again_reads_same_record toyGlobals toyToken (lit "t1") emptyWorld
    ⟨lit "rsama", lit "3233", lit "master" ++ hexEncode (lit "1700000000000000001")⟩
    (by decide) toy_roundtrip (by decide) (by decide)
theorem M.bind_congr_left {α β : Type} {m m' : M α} (f : α → M β) {w : World}
    (h : m w = m' w) : M.bind m f w = M.bind m' f w := by
  unfold M.bind
  rw [h]

theorem M.bind_congr_right {α β : Type} (m : M α) {f f' : α → M β} {w : World}
    (h : ∀ a w1, m w = (Res.ok a, w1) → f a w1 = f' a w1) : M.bind m f w = M.bind m f' w := by
  unfold M.bind
  rcases hm : m w with ⟨r, w1⟩
  cases r with
  | ok a => exact h a w1 hm
  | error e => rfl
  | panic => rfl

theorem createSignature_cached_eq (g : Globals) (h : jsonWebToken) (p : GoString) (b b' : Body)
    (w : World)
    (hpresent : (assoc (credentialKey p, signatureField) w.cache.hashes).isSome = true) :
    createSignature g h p b w = createSignature g h p b' w := by
  simp only [createSignature, bind]
  apply M.bind_congr_right
  intro a w1 hm
  have ha : a = true := by
    unfold Redis.HExists at hm
    cases hf : h.redis.fault w.tick with
    | none =>
      rw [hf] at hm
      simp only [Prod.mk.injEq, Res.ok.injEq] at hm
      rw [← hm.1]
      exact hpresent
    | some e =>
      rw [hf] at hm
      simp at hm
  subst ha
  simp only [Bool.not_true, Bool.false_eq_true, if_false]

/-- C9: when the signature tier of the prefix is cached, `createSignature`
does not look at the body: for any two bodies it gives the same outcome and
state, it leaves the cache as it was, and its trace holds only the existence
check, the read and the deserialization of the signature tier (no call of
`createSecret`, no write).  Hence `Sign` gives the same outcome, state and
trace for both bodies, with the same claim sets handed to the token codec. -/
theorem createSignature_cached_ignores_body (g : Globals) (h : jsonWebToken) (p : GoString)
    (b b' : Body) (w : World)
    (hpresent : (assoc (credentialKey p, signatureField) w.cache.hashes).isSome = true) :
    createSignature g h p b w = createSignature g h p b' w
      ∧ (createSignature g h p b w).2.cache = w.cache
      ∧ (∃ evs, (createSignature g h p b w).2.log = w.log ++ evs
          ∧ AllCalls (signatureRead p) evs)
      ∧ Sign g h p b w = Sign g h p b' w
      ∧ payloads (Sign g h p b w).2.log = payloads (Sign g h p b' w).2.log := by
  have hwp : wp (createSignature g h p b) (fun _ w1 => w1.cache = w.cache
      ∧ ∃ evs, w1.log = w.log ++ evs ∧ AllCalls (signatureRead p) evs) w := by
    simp only [createSignature, wp_bind, wp_pure, wp_ite, wp_step, wp_check, wp_HExists,
      wp_HGet, wp_HSetEx, ← credentialKey.eq_1, ← signatureField.eq_1, record_tick, record_log,
      record_cache]
    refine ⟨fun hf => ⟨fun hmiss => ?_, fun hhit => ?_⟩, fun e he => ?_⟩
    · rw [hpresent] at hmiss
      exact absurd hmiss (by decide)
    · repeat' (first | intro _ | apply And.intro)
      all_goals simp only [List.append_assoc, List.singleton_append, List.cons_append,
        List.nil_append, List.append_cancel_left_eq, exists_eq_left']
      all_goals simp [AllCalls, signatureRead]
    · simp [AllCalls, signatureRead]
  have hsign : Sign g h p b w = Sign g h p b' w := by
    simp only [Sign, bind]
    apply M.bind_congr_right
    intro n w1 hm
    have hw1 : w1.cache = w.cache := by
      unfold Redis.Exists at hm
      cases hf : h.redis.fault w.tick with
      | none =>
        rw [hf] at hm
        simp only [Prod.mk.injEq] at hm
        rw [← hm.2]
        rfl
      | some e =>
        rw [hf] at hm
        simp at hm
    by_cases hn : n < 1
    · simp only [hn, if_true]
      apply M.bind_congr_left
      exact createSignature_cached_eq g h p b b' w1 (by rw [hw1]; exact hpresent)
    · simp only [hn, if_false]
  exact ⟨createSignature_cached_eq g h p b b' w hpresent, hwp.1, hwp.2, hsign, by rw [hsign]⟩


theorem createSignature_cached_ignores_body_witness :
    createSignature toyGlobals toyToken (lit "t1") (lit "body") signedWorld
        = createSignature toyGlobals toyToken (lit "t1") (lit "chan") signedWorld
      ∧ (createSignature toyGlobals toyToken (lit "t1") (lit "body") signedWorld).2.cache
        = signedWorld.cache
      ∧ (∃ evs, (createSignature toyGlobals toyToken (lit "t1") (lit "body") signedWorld).2.log
            = signedWorld.log ++ evs
          ∧ AllCalls (signatureRead (lit "t1")) evs)
      ∧ Sign toyGlobals toyToken (lit "t1") (lit "body") signedWorld
        = Sign toyGlobals toyToken (lit "t1") (lit "chan") signedWorld
      ∧ payloads (Sign toyGlobals toyToken (lit "t1") (lit "body") signedWorld).2.log
        = payloads (Sign toyGlobals toyToken (lit "t1") (lit "chan") signedWorld).2.log :=
  createSignature_cached_ignores_body toyGlobals toyToken (lit "t1") (lit "body") (lit "chan")
    signedWorld (by decide)

/-- C2: in every run of `createSignature`, a failed verification of the fresh
signature makes the routine return that error with no write of the signature
tier (attempted or done) and the tier's entry as it was; and every write of
`signature_metadata` stores the serialization of a record whose `SigKey` is
the hex encoding of a signature that the key pair produced over the SHA-512
hash of the serialized body and that verified against the key pair's public
key earlier in the same run, the key pair being the decoding of the record's
own private key. -/
theorem createSignature_persists_only_verified (g : Globals) (h : jsonWebToken) (p : GoString)
    (b : Body) (w : World) :
    ∃ evs, (createSignature g h p b w).2.log = w.log ++ evs
      ∧ (∀ pub hashed sg e, (⟨Call.VerifyPKCS1v15 pub hashed sg, some e⟩ : Event) ∈ evs →
          (createSignature g h p b w).1 = Res.error e
          ∧ NoCalls (isSignatureWrite p) evs
          ∧ assoc (credentialKey p, signatureField) (createSignature g h p b w).2.cache.hashes
            = assoc (credentialKey p, signatureField) w.cache.hashes)
      ∧ (∀ k d v e, (⟨Call.HSetEx k d signatureField v, e⟩ : Event) ∈ evs →
          ∃ (key : PrivateKey) (bodyByte sg : GoString) (record : SignatureMetadata)
            (n i j l : Nat),
            g.MarshalSignature l record = Except.ok v
            ∧ record.SigKey = hexEncode sg
            ∧ g.PrivateKeyRawToKey n record.PrivKey record.CipherKey = Except.ok key
            ∧ g.MarshalBody i b = Except.ok bodyByte
            ∧ g.SignPKCS1v15 j key (g.sha512 bodyByte) = Except.ok sg
            ∧ g.VerifyPKCS1v15 key.PublicKey (g.sha512 bodyByte) sg = none
            ∧ done (Call.VerifyPKCS1v15 key.PublicKey (g.sha512 bodyByte) sg) ∈ evs) := by
  show wp (createSignature g h p b) (fun r w1 => ∃ evs, w1.log = w.log ++ evs
      ∧ (∀ pub hashed sg e, (⟨Call.VerifyPKCS1v15 pub hashed sg, some e⟩ : Event) ∈ evs →
          r = Res.error e
          ∧ NoCalls (isSignatureWrite p) evs
          ∧ assoc (credentialKey p, signatureField) w1.cache.hashes
            = assoc (credentialKey p, signatureField) w.cache.hashes)
      ∧ (∀ k d v e, (⟨Call.HSetEx k d signatureField v, e⟩ : Event) ∈ evs →
          ∃ (key : PrivateKey) (bodyByte sg : GoString) (record : SignatureMetadata)
            (n i j l : Nat),
            g.MarshalSignature l record = Except.ok v
            ∧ record.SigKey = hexEncode sg
            ∧ g.PrivateKeyRawToKey n record.PrivKey record.CipherKey = Except.ok key
            ∧ g.MarshalBody i b = Except.ok bodyByte
            ∧ g.SignPKCS1v15 j key (g.sha512 bodyByte) = Except.ok sg
            ∧ g.VerifyPKCS1v15 key.PublicKey (g.sha512 bodyByte) sg = none
            ∧ done (Call.VerifyPKCS1v15 key.PublicKey (g.sha512 bodyByte) sg) ∈ evs)) w
  simp only [createSignature, wp_bind, wp_pure, wp_ite, wp_step, wp_check, wp_HExists, wp_HGet,
    wp_HSetEx, ← credentialKey.eq_1, ← signatureField.eq_1, record_tick, record_log, record_cache]
  refine ⟨fun hf => ⟨fun hmiss => ?_, fun hhit => ?_⟩, fun e he => ?_⟩
  · apply wp_mono (createSecret_spec g h p _)
    rintro r1 w2 ⟨evs1, hlog, -, hsc, -, -, hother, -, -⟩
    have hsc2 : NoCalls (isSignatureWrite p) evs1 :=
      fun x hx => secretCall_not_signatureWrite p _ (hsc x hx)
    have hnoV : ∀ pub hashed sg e,
        (⟨Call.VerifyPKCS1v15 pub hashed sg, e⟩ : Event) ∉ evs1 := by
      intro pub hashed sg e hm
      have := hsc _ hm
      simp [secretCall] at this
    have hnoW : ∀ k d v e, (⟨Call.HSetEx k d signatureField v, e⟩ : Event) ∉ evs1 := by
      intro k d v e hm
      have := hsc _ hm
      simp only [secretCall, decide_eq_true_eq] at this
      exact fields_ne this.2.symm
    have hsig := hother (credentialKey p, signatureField)
      (fun hc => fields_ne (congrArg Prod.snd hc).symm)
    simp only [record_log, record_cache] at hlog hsig
    cases r1 with
    | ok sk =>
      simp only []
      repeat' (first | intro _ | apply And.intro)
      all_goals simp only [hlog, record_log, List.append_assoc, List.singleton_append,
        List.cons_append, List.nil_append, List.append_cancel_left_eq, exists_eq_left']
      all_goals simp only [List.mem_cons, List.mem_append, hnoV, hnoW, List.mem_singleton,
        Event.mk.injEq, reduceCtorEq, false_and, and_false, or_false, false_or, or_self,
        List.not_mem_nil, false_implies, implies_true, IsEmpty.forall_iff, and_self, and_true,
        true_and, Call.VerifyPKCS1v15.injEq, Call.HSetEx.injEq, done, Option.some.injEq,
        forall_const]
      all_goals first
        | (rintro k d v e ⟨⟨rfl, rfl, rfl⟩, rfl⟩
           exact ⟨_, _, _, _, w2.tick, _, _, _, by assumption, by rfl, by assumption,
             by assumption, by assumption, by assumption, ⟨rfl, rfl, rfl⟩⟩)
        | (rintro pub hashed sg e ⟨-, rfl⟩
           refine ⟨rfl, ?_, hsig⟩
           simp only [NoCalls_cons, NoCalls_append, NoCalls_nil, hsc2, isSignatureWrite,
             and_self])
    | error e =>
      simp only []
      refine ⟨done (Call.HExists (credentialKey p) signatureField) :: evs1,
        by simp only [hlog, done, List.append_assoc, List.singleton_append], ?_, ?_⟩
      · simp [hnoV, done]
      · simp [hnoW, done]
    | panic =>
      simp only []
      refine ⟨done (Call.HExists (credentialKey p) signatureField) :: evs1,
        by simp only [hlog, done, List.append_assoc, List.singleton_append], ?_, ?_⟩
      · simp [hnoV, done]
      · simp [hnoW, done]
  · repeat' (first | intro _ | apply And.intro)
    all_goals simp only [record_log, List.append_assoc, List.singleton_append, List.cons_append,
      List.nil_append, List.append_cancel_left_eq, exists_eq_left']
    all_goals simp
  · simp
theorem payloads_append (a b : List Event) : payloads (a ++ b) = payloads a ++ payloads b := by
  induction a with
  | nil => rfl
  | cons x r ih =>
    obtain ⟨c, e⟩ := x
    cases c <;> simp [payloads, ih]

theorem payloads_of_signatureCall (p : GoString) (evs : List Event)
    (h : AllCalls (signatureCall p) evs) : payloads evs = [] := by
  induction evs with
  | nil => rfl
  | cons x r ih =>
    obtain ⟨c, e⟩ := x
    have hx := h ⟨c, e⟩ (List.mem_cons_self _ _)
    have hr : AllCalls (signatureCall p) r := fun y hy => h y (List.mem_cons_of_mem _ hy)
    cases c <;> simp_all [payloads, signatureCall]

theorem Sign_payload (g : Globals) (h : jsonWebToken) (p : GoString) (b : Body) (w : World) :
    wp (Sign g h p b) (fun r w1 => ∃ evs, w1.log = w.log ++ evs
      ∧ (∀ o ∈ payloads evs, ∃ (sig : SignatureMetadata) (i : Nat) (aud iss sub jti : GoString)
          (pk : PrivateKey),
          slice sig.SigKey 10 20 = some aud ∧ slice sig.SigKey 30 40 = some iss
          ∧ slice sig.SigKey 50 60 = some sub
          ∧ g.AES256Encrypt (i + 1)
              (hexEncode (sprintfColon aud iss sub h.env.JWT_EXPIRED)) p = Except.ok jti
          ∧ g.PrivateKeyRawToKey (i + 2) sig.PrivKey sig.CipherKey = Except.ok pk
          ∧ o = { SecretKey := sig.CipherKey
                  Kid := sig.JweKey.CipherText
                  PrivateKey := pk
                  Aud := [aud]
                  Iss := iss
                  Sub := sub
                  Jti := jti
                  Iat := (g.now (i + 3)).UTC.Add (wrap64 (-(minutes h.env.JWT_EXPIRED)))
                  Exp := (g.now (i + 4)).Add (minutes h.env.JWT_EXPIRED)
                  Claim := g.Format (g.now i) (lit "2006/01/02 15:04:05") })
      ∧ (∀ k d v e, (⟨Call.SetEx k d v, e⟩ : Event) ∈ evs →
          k = tokenKey p ∧ d = minutes h.env.JWT_EXPIRED
          ∧ (∃ o i, o ∈ payloads evs ∧ g.JwtSign i o = Except.ok v)
          ∧ ∀ t, r = Res.ok t → t = v)) w := by
  simp only [Sign, wp_bind, wp_pure, wp_ite, wp_step, wp_timeNow, wp_sliceM, wp_Exists, wp_Get,
    wp_SetEx, ← tokenKey.eq_1, record_tick, record_log, record_cache]
  refine ⟨fun hf => ⟨fun hmiss => ?_, fun hhit => ?_⟩, fun e he => ?_⟩
  · apply wp_mono (createSignature_spec g h p b _)
    rintro r1 w2 ⟨evs1, hlog, -, hsc, -, -, -, -⟩
    have hpay : payloads evs1 = [] := payloads_of_signatureCall p _ hsc
    have hnoS : ∀ k d v e, (⟨Call.SetEx k d v, e⟩ : Event) ∉ evs1 := by
      intro k d v e hm
      have := hsc _ hm
      simp [signatureCall] at this
    simp only [record_log, record_cache] at hlog
    cases r1 with
    | ok sig =>
      simp only []
      repeat' (first | intro _ | apply And.intro)
      all_goals simp only [hlog, record_log, List.append_assoc, List.singleton_append,
        List.cons_append, List.nil_append, List.append_cancel_left_eq, exists_eq_left']
      all_goals simp only [List.mem_cons, List.mem_append, hnoS, hpay, payloads, payloads_append,
        List.mem_singleton,
        Event.mk.injEq, reduceCtorEq, false_and, and_false, or_false, false_or, or_self,
        List.not_mem_nil, false_implies, implies_true, IsEmpty.forall_iff, and_self, and_true,
        true_and, Call.SetEx.injEq, done, Option.some.injEq, List.append_nil, List.nil_append,
        forall_const, forall_eq]
      all_goals first
        | (refine ⟨⟨sig, w2.tick, _, _, _, _, _, by assumption, by assumption, by assumption,
             by assumption, by assumption, rfl⟩, ?_⟩
           rintro k d v e ⟨⟨rfl, rfl, rfl⟩, rfl⟩
           first
             | exact ⟨rfl, rfl, ⟨_, _, rfl, by assumption⟩, fun t ht => (Res.ok.inj ht).symm⟩
             | exact ⟨rfl, rfl, _, _, rfl, by assumption⟩)

        | exact ⟨sig, w2.tick, _, _, _, _, _, by assumption, by assumption, by assumption,
             by assumption, by assumption, rfl⟩
    | error e =>
      simp only []
      refine ⟨done (Call.Exists (tokenKey p)) :: evs1,
        by simp only [hlog, done, List.append_assoc, List.singleton_append], ?_, ?_⟩
      · simp [payloads, hpay, done]
      · simp [hnoS, done]
    | panic =>
      simp only []
      refine ⟨done (Call.Exists (tokenKey p)) :: evs1,
        by simp only [hlog, done, List.append_assoc, List.singleton_append], ?_, ?_⟩
      · simp [payloads, hpay, done]
      · simp [hnoS, done]
  · repeat' (first | intro _ | apply And.intro)
    all_goals simp only [record_log, List.append_assoc, List.singleton_append, List.cons_append,
      List.nil_append, List.append_cancel_left_eq, exists_eq_left']
    all_goals simp [payloads]
  · simp [payloads]

/-- A `Sign` that starts without a token for the prefix and returns one, step
by step after `createSignature` has returned: the clock, the cipher, the key
decoder, the clock twice, the token codec and the write of the token. -/
theorem Sign_issue (g : Globals) (h : jsonWebToken) (p : GoString) (b : Body) (w : World)
    (t : GoString)
    (hmiss : assoc (tokenKey p) w.cache.strings = none)
    (hok : (Sign g h p b w).1 = Res.ok t) :
    ∃ sig aud iss sub jti pk,
      (createSignature g h p b (w.record (Call.Exists (tokenKey p)) none)).1 = Res.ok sig
      ∧ slice sig.SigKey 10 20 = some aud ∧ slice sig.SigKey 30 40 = some iss
      ∧ slice sig.SigKey 50 60 = some sub
      ∧ g.AES256Encrypt
          ((createSignature g h p b (w.record (Call.Exists (tokenKey p)) none)).2.tick + 1)
          (hexEncode (sprintfColon aud iss sub h.env.JWT_EXPIRED)) p = Except.ok jti
      ∧ g.PrivateKeyRawToKey
          ((createSignature g h p b (w.record (Call.Exists (tokenKey p)) none)).2.tick + 2)
          sig.PrivKey sig.CipherKey = Except.ok pk
      ∧ g.JwtSign
          ((createSignature g h p b (w.record (Call.Exists (tokenKey p)) none)).2.tick + 5)
          (claimSet g h sig aud iss sub jti pk
            (g.now (createSignature g h p b
              (w.record (Call.Exists (tokenKey p)) none)).2.tick)
            (g.now ((createSignature g h p b
              (w.record (Call.Exists (tokenKey p)) none)).2.tick + 3))
            (g.now ((createSignature g h p b
              (w.record (Call.Exists (tokenKey p)) none)).2.tick + 4))) = Except.ok t
      ∧ (Sign g h p b w).2.log
        = (createSignature g h p b (w.record (Call.Exists (tokenKey p)) none)).2.log
          ++ [done Call.Now,
              done (Call.AES256Encrypt (hexEncode (sprintfColon aud iss sub h.env.JWT_EXPIRED)) p),
              done (Call.PrivateKeyRawToKey sig.PrivKey sig.CipherKey),
              done Call.Now, done Call.Now,
              done (Call.JwtSign (claimSet g h sig aud iss sub jti pk
                (g.now (createSignature g h p b
                  (w.record (Call.Exists (tokenKey p)) none)).2.tick)
                (g.now ((createSignature g h p b
                  (w.record (Call.Exists (tokenKey p)) none)).2.tick + 3))
                (g.now ((createSignature g h p b
                  (w.record (Call.Exists (tokenKey p)) none)).2.tick + 4)))),
              done (Call.SetEx (tokenKey p) (minutes h.env.JWT_EXPIRED) t)]
      ∧ (Sign g h p b w).2.tick
        = (createSignature g h p b (w.record (Call.Exists (tokenKey p)) none)).2.tick + 7
      ∧ assoc (tokenKey p) (Sign g h p b w).2.cache.strings
        = some ⟨t, minutes h.env.JWT_EXPIRED⟩
      ∧ payloads (createSignature g h p b (w.record (Call.Exists (tokenKey p)) none)).2.log
        = payloads w.log := by
  have key : wp (Sign g h p b) (fun r w1 => r = Res.ok t →
      ∃ sig aud iss sub jti pk,
      (createSignature g h p b (w.record (Call.Exists (tokenKey p)) none)).1 = Res.ok sig
      ∧ slice sig.SigKey 10 20 = some aud ∧ slice sig.SigKey 30 40 = some iss
      ∧ slice sig.SigKey 50 60 = some sub
      ∧ g.AES256Encrypt
          ((createSignature g h p b (w.record (Call.Exists (tokenKey p)) none)).2.tick + 1)
          (hexEncode (sprintfColon aud iss sub h.env.JWT_EXPIRED)) p = Except.ok jti
      ∧ g.PrivateKeyRawToKey
          ((createSignature g h p b (w.record (Call.Exists (tokenKey p)) none)).2.tick + 2)
          sig.PrivKey sig.CipherKey = Except.ok pk
      ∧ g.JwtSign
          ((createSignature g h p b (w.record (Call.Exists (tokenKey p)) none)).2.tick + 5)
          (claimSet g h sig aud iss sub jti pk
            (g.now (createSignature g h p b
              (w.record (Call.Exists (tokenKey p)) none)).2.tick)
            (g.now ((createSignature g h p b
              (w.record (Call.Exists (tokenKey p)) none)).2.tick + 3))
            (g.now ((createSignature g h p b
              (w.record (Call.Exists (tokenKey p)) none)).2.tick + 4))) = Except.ok t
      ∧ w1.log
        = (createSignature g h p b (w.record (Call.Exists (tokenKey p)) none)).2.log
          ++ [done Call.Now,
              done (Call.AES256Encrypt (hexEncode (sprintfColon aud iss sub h.env.JWT_EXPIRED)) p),
              done (Call.PrivateKeyRawToKey sig.PrivKey sig.CipherKey),
              done Call.Now, done Call.Now,
              done (Call.JwtSign (claimSet g h sig aud iss sub jti pk
                (g.now (createSignature g h p b
                  (w.record (Call.Exists (tokenKey p)) none)).2.tick)
                (g.now ((createSignature g h p b
                  (w.record (Call.Exists (tokenKey p)) none)).2.tick + 3))
                (g.now ((createSignature g h p b
                  (w.record (Call.Exists (tokenKey p)) none)).2.tick + 4)))),
              done (Call.SetEx (tokenKey p) (minutes h.env.JWT_EXPIRED) t)]
      ∧ w1.tick
        = (createSignature g h p b (w.record (Call.Exists (tokenKey p)) none)).2.tick + 7
      ∧ assoc (tokenKey p) w1.cache.strings = some ⟨t, minutes h.env.JWT_EXPIRED⟩) w := by
    simp only [Sign, wp_bind, wp_pure, wp_ite, wp_step, wp_timeNow, wp_sliceM, wp_Exists, wp_Get,
      wp_SetEx, ← tokenKey.eq_1, record_tick, record_log, record_cache, hmiss]
    refine ⟨fun hf => ⟨fun _ => ?_, fun hhit => ?_⟩, fun e he => ?_⟩
    · unfold wp
      generalize createSignature g h p b (w.record (Call.Exists (tokenKey p)) none) = x
      obtain ⟨r1, w2⟩ := x
      cases r1 with
      | ok sig =>
        simp only []
        repeat' (first | intro _ | apply And.intro)
        all_goals first
          | contradiction
          | skip
        all_goals (rename_i hr; cases hr)
        exact ⟨sig, _, _, _, _, _, rfl, by assumption, by assumption, by assumption,
          by assumption, by assumption, by assumption,
          by simp only [done, claimSet, List.append_assoc, List.singleton_append,
            List.cons_append, List.nil_append],
          trivial, assoc_put_self _ _ _⟩
      | error e => simp
      | panic => simp
    · simp at hhit
    · simp
  obtain ⟨sig, aud, iss, sub, jti, pk, h1, h2, h3, h4, h5, h6, h7, h8, h9, h10⟩ := key hok
  refine ⟨sig, aud, iss, sub, jti, pk, h1, h2, h3, h4, h5, h6, h7, h8, h9, h10, ?_⟩
  obtain ⟨evs1, hlog, -, hsc, -⟩ := createSignature_spec g h p b
    (w.record (Call.Exists (tokenKey p)) none)
  rw [hlog, payloads_append, payloads_of_signatureCall p _ hsc, record_log, payloads_append]
  simp [payloads]

theorem wrap64_of_range (x : Int) (h1 : -(2 ^ 63) < x) (h2 : x < 2 ^ 63) : wrap64 x = x := by
  unfold wrap64
  have e63 : (2 : Int) ^ 63 = 9223372036854775808 := by norm_num
  have e64 : (2 : Int) ^ 64 = 18446744073709551616 := by norm_num
  rw [e63] at h1 h2 ⊢
  rw [e64]
  omega

theorem minutes_of_range (n : Int) (h1 : -(2 ^ 63) < Minute * n) (h2 : Minute * n < 2 ^ 63) :
    minutes n = Minute * n ∧ wrap64 (-(minutes n)) = -(Minute * n) := by
  have e63 : (2 : Int) ^ 63 = 9223372036854775808 := by norm_num
  have hn : wrap64 n = n := by
    apply wrap64_of_range
    · rw [e63] at h1 ⊢
      unfold Minute at h1
      omega
    · rw [e63] at h2 ⊢
      unfold Minute at h2
      omega
  have hm : minutes n = Minute * n := by
    unfold minutes
    rw [hn]
    exact wrap64_of_range _ h1 h2
  refine ⟨hm, ?_⟩
  rw [hm]
  apply wrap64_of_range
  · rw [e63] at h2 ⊢
    omega
  · rw [e63] at h1 ⊢
    omega

/-- C5: a `Sign` that starts without a token for the prefix and returns one
ends with two clock readings, the call of the token codec and the write of the
token, and hands exactly one claim set to the codec.  Its `Iat` is the first of
the two readings plus the negated duration, its `Exp` the second reading plus
the duration, and the token, which is the codec's answer for that claim set, is
stored at the token key with that duration as expiry, where the duration is
`time.Minute * JWT_EXPIRED` as an int64.  When
`JWT_EXPIRED` minutes is representable, the duration is that number of
nanoseconds, `Iat` is the first reading minus it and `Exp` the second reading
plus it; and when both readings are one instant `now`, `Iat = now - ttl`,
`Exp = now + ttl` and they are `2 * ttl` apart. -/
theorem Sign_claims_window (g : Globals) (h : jsonWebToken) (p : GoString) (b : Body)
    (w : World) (t : GoString)
    (hmiss : assoc (tokenKey p) w.cache.strings = none)
    (hok : (Sign g h p b w).1 = Res.ok t) :
    ∃ pre o i,
      (Sign g h p b w).2.log
        = pre ++ [done Call.Now, done Call.Now, done (Call.JwtSign o),
            done (Call.SetEx (tokenKey p) (minutes h.env.JWT_EXPIRED) t)]
      ∧ (Sign g h p b w).2.tick = i + 4
      ∧ payloads (Sign g h p b w).2.log = payloads w.log ++ [o]
      ∧ g.JwtSign (i + 2) o = Except.ok t
      ∧ o.Iat.unixNano = (g.now i).unixNano + wrap64 (-(minutes h.env.JWT_EXPIRED))
      ∧ o.Exp.unixNano = (g.now (i + 1)).unixNano + minutes h.env.JWT_EXPIRED
      ∧ assoc (tokenKey p) (Sign g h p b w).2.cache.strings
        = some ⟨t, minutes h.env.JWT_EXPIRED⟩
      ∧ (-(2 ^ 63) < Minute * h.env.JWT_EXPIRED ∧ Minute * h.env.JWT_EXPIRED < 2 ^ 63 →
          minutes h.env.JWT_EXPIRED = Minute * h.env.JWT_EXPIRED
          ∧ o.Iat.unixNano = (g.now i).unixNano - Minute * h.env.JWT_EXPIRED
          ∧ o.Exp.unixNano = (g.now (i + 1)).unixNano + Minute * h.env.JWT_EXPIRED
          ∧ ∀ now, (g.now i).unixNano = now → (g.now (i + 1)).unixNano = now →
              o.Iat.unixNano = now - Minute * h.env.JWT_EXPIRED
              ∧ o.Exp.unixNano = now + Minute * h.env.JWT_EXPIRED
              ∧ o.Exp.unixNano - o.Iat.unixNano = 2 * (Minute * h.env.JWT_EXPIRED)) := by
  obtain ⟨sig, aud, iss, sub, jti, pk, -, -, -, -, -, -, hjwt, hlog, htick, hcache, hpay⟩ :=
    Sign_issue g h p b w t hmiss hok
  generalize (createSignature g h p b (w.record (Call.Exists (tokenKey p)) none)).2 = w2
    at hlog htick hpay hjwt
  refine ⟨w2.log ++ [done Call.Now, done (Call.AES256Encrypt
      (hexEncode (sprintfColon aud iss sub h.env.JWT_EXPIRED)) p),
      done (Call.PrivateKeyRawToKey sig.PrivKey sig.CipherKey)],
    claimSet g h sig aud iss sub jti pk (g.now w2.tick) (g.now (w2.tick + 3))
      (g.now (w2.tick + 4)), w2.tick + 3, ?_, htick, ?_, hjwt,
    rfl, rfl, hcache, ?_⟩
  · rw [hlog]
    simp only [List.append_assoc, List.cons_append, List.nil_append]
  · rw [hlog, payloads_append, hpay]
    simp [payloads, done]
  · intro hrep
    obtain ⟨hm, hneg⟩ := minutes_of_range _ hrep.1 hrep.2
    refine ⟨hm, ?_, ?_, ?_⟩
    · simp only [claimSet, Time.Add, Time.UTC, hneg]
      ring
    · simp only [claimSet, Time.Add, hm]
    · intro now h3 h4
      simp only [claimSet, Time.Add, Time.UTC, hneg, h3, h4]
      rw [hm]
      exact ⟨by ring, rfl, by ring⟩

/-- C3, as amended: a `Sign` that starts without a token for the prefix and
returns one calls `AES256Encrypt` with the hex encoding of
`aud:iss:sub:JWT_EXPIRED` as its first (secret) argument and the prefix as its
second, where `aud`, `iss`, `sub` are the slices of the `SigKey` of the record
that `createSignature` returned; the answer of that call is the `Jti` of the
one claim set handed to the codec.  The record's `CipherKey` is no argument of
that call: it is the `SecretKey` of the claim set and the password under which
the record's `PrivKey` is decoded into the `PrivateKey` of the claim set. -/
theorem Sign_jti_keyed_by_composite (g : Globals) (h : jsonWebToken) (p : GoString) (b : Body)
    (w : World) (t : GoString)
    (hmiss : assoc (tokenKey p) w.cache.strings = none)
    (hok : (Sign g h p b w).1 = Res.ok t) :
    ∃ sig aud iss sub pre o i,
      (createSignature g h p b (w.record (Call.Exists (tokenKey p)) none)).1 = Res.ok sig
      ∧ slice sig.SigKey 10 20 = some aud ∧ slice sig.SigKey 30 40 = some iss
      ∧ slice sig.SigKey 50 60 = some sub
      ∧ (Sign g h p b w).2.log
        = pre ++ [done (Call.AES256Encrypt
              (hexEncode (sprintfColon aud iss sub h.env.JWT_EXPIRED)) p),
            done (Call.PrivateKeyRawToKey sig.PrivKey sig.CipherKey),
            done Call.Now, done Call.Now, done (Call.JwtSign o),
            done (Call.SetEx (tokenKey p) (minutes h.env.JWT_EXPIRED) t)]
      ∧ (Sign g h p b w).2.tick = i + 6
      ∧ payloads (Sign g h p b w).2.log = payloads w.log ++ [o]
      ∧ g.AES256Encrypt i (hexEncode (sprintfColon aud iss sub h.env.JWT_EXPIRED)) p
        = Except.ok o.Jti
      ∧ o.Aud = [aud] ∧ o.Iss = iss ∧ o.Sub = sub
      ∧ o.SecretKey = sig.CipherKey
      ∧ g.PrivateKeyRawToKey (i + 1) sig.PrivKey sig.CipherKey = Except.ok o.PrivateKey
      ∧ g.JwtSign (i + 4) o = Except.ok t := by
  obtain ⟨sig, aud, iss, sub, jti, pk, hsig, h1, h2, h3, hjti, hpk, hjwt, hlog, htick, -,
    hpay⟩ := Sign_issue g h p b w t hmiss hok
  generalize (createSignature g h p b (w.record (Call.Exists (tokenKey p)) none)).2 = w2
    at hlog htick hpay hjti hpk hjwt
  refine ⟨sig, aud, iss, sub, w2.log ++ [done Call.Now],
    claimSet g h sig aud iss sub jti pk (g.now w2.tick) (g.now (w2.tick + 3))
      (g.now (w2.tick + 4)), w2.tick + 1, hsig, h1, h2, h3, ?_, htick, ?_, hjti, rfl, rfl, rfl,
    rfl, hpk, hjwt⟩
  · rw [hlog]
    simp only [List.append_assoc, List.cons_append, List.nil_append]
  · rw [hlog, payloads_append, hpay]
    simp [payloads, done]

set_option maxRecDepth 8192 in
theorem Sign_jti_keyed_by_composite_witness :
    assoc (tokenKey (lit "t1")) emptyWorld.cache.strings = none
      ∧ (Sign toyGlobals toyToken (lit "t1") (lit "body") emptyWorld).1
        = Res.ok (lit "jwt.616261626162616261623a616261626162616261623a616261626162616261623a3135t1")
      ∧ ∃ sig aud iss sub pre o i,
        (createSignature toyGlobals toyToken (lit "t1") (lit "body")
            (emptyWorld.record (Call.Exists (tokenKey (lit "t1"))) none)).1 = Res.ok sig
        ∧ slice sig.SigKey 10 20 = some aud ∧ slice sig.SigKey 30 40 = some iss
        ∧ slice sig.SigKey 50 60 = some sub
        ∧ (Sign toyGlobals toyToken (lit "t1") (lit "body") emptyWorld).2.log
          = pre ++ [done (Call.AES256Encrypt
                (hexEncode (sprintfColon aud iss sub toyToken.env.JWT_EXPIRED)) (lit "t1")),
              done (Call.PrivateKeyRawToKey sig.PrivKey sig.CipherKey),
              done Call.Now, done Call.Now, done (Call.JwtSign o),
              done (Call.SetEx (tokenKey (lit "t1")) (minutes toyToken.env.JWT_EXPIRED)
                (lit "jwt.616261626162616261623a616261626162616261623a616261626162616261623a3135t1"))]
        ∧ (Sign toyGlobals toyToken (lit "t1") (lit "body") emptyWorld).2.tick = i + 6
        ∧ payloads (Sign toyGlobals toyToken (lit "t1") (lit "body") emptyWorld).2.log
          = payloads emptyWorld.log ++ [o]
        ∧ toyGlobals.AES256Encrypt i
            (hexEncode (sprintfColon aud iss sub toyToken.env.JWT_EXPIRED)) (lit "t1")
          = Except.ok o.Jti
        ∧ o.Aud = [aud] ∧ o.Iss = iss ∧ o.Sub = sub
        ∧ o.SecretKey = sig.CipherKey
        ∧ toyGlobals.PrivateKeyRawToKey (i + 1) sig.PrivKey sig.CipherKey
          = Except.ok o.PrivateKey
        ∧ toyGlobals.JwtSign (i + 4) o
          = Except.ok
            (lit "jwt.616261626162616261623a616261626162616261623a616261626162616261623a3135t1") :=
  ⟨by decide, by decide,
    Sign_jti_keyed_by_composite toyGlobals toyToken (lit "t1") (lit "body") emptyWorld
      (lit "jwt.616261626162616261623a616261626162616261623a616261626162616261623a3135t1")
      (by decide) (by decide)⟩

set_option maxRecDepth 8192 in
theorem Sign_claims_window_witness :
    assoc (tokenKey (lit "t1")) emptyWorld.cache.strings = none
      ∧ (Sign toyFrozen toyToken (lit "t1") (lit "body") emptyWorld).1
        = Res.ok (lit "jwt.616261626162616261623a616261626162616261623a616261626162616261623a3135t1")
      ∧ ∃ o, payloads (Sign toyFrozen toyToken (lit "t1") (lit "body") emptyWorld).2.log = [o]
          ∧ o.Iat.unixNano = 1700000000000000000 - 900000000000
          ∧ o.Exp.unixNano = 1700000000000000000 + 900000000000
          ∧ o.Exp.unixNano - o.Iat.unixNano = 2 * 900000000000
          ∧ assoc (tokenKey (lit "t1"))
              (Sign toyFrozen toyToken (lit "t1") (lit "body") emptyWorld).2.cache.strings
            = some ⟨lit "jwt.616261626162616261623a616261626162616261623a616261626162616261623a3135t1",
                900000000000⟩ := by
  refine ⟨by decide, by decide, ?_⟩
  obtain ⟨pre, o, i, -, -, hpay, -, -, -, hcache, hrep⟩ :=
    Sign_claims_window toyFrozen toyToken (lit "t1") (lit "body") emptyWorld
      (lit "jwt.616261626162616261623a616261626162616261623a616261626162616261623a3135t1")
      (by decide) (by decide)
  obtain ⟨hm, -, -, hnow⟩ := hrep ⟨by decide, by decide⟩
  obtain ⟨h1, h2, h3⟩ := hnow 1700000000000000000 rfl rfl
  have e : Minute * toyToken.env.JWT_EXPIRED = 900000000000 := by decide
  rw [e] at h1 h2 h3 hm
  rw [hm] at hcache
  exact ⟨o, hpay, h1, h2, h3, hcache⟩

set_option maxRecDepth 8192 in
/-- C3, counterexample: two cached signature records with the same `SigKey`
and different cipher keys, each with its private key sealed under its own
cipher key (the decoder used here rejects the other one).  Both runs of `Sign`
return a token, the only call of the cipher has the secret
`hex(aud:iss:sub:15)` and the text `t1`, and the two claim sets carry different
`SecretKey`s and the same `Jti`, although the cipher used here returns its
secret argument followed by its text. -/
theorem Sign_jti_ignores_cipherKey :
    recordA.CipherKey ≠ recordB.CipherKey
      ∧ recordA.SigKey = recordB.SigKey
      ∧ toyStrict.PrivateKeyRawToKey 0 recordA.PrivKey recordB.CipherKey
        = Except.error (Error.failure 5)
      ∧ (Sign toyStrict toyToken (lit "t1") (lit "body") (cachedWorld recordA)).1
        = Res.ok (lit "jwt.616261626162616261623a616261626162616261623a616261626162616261623a3135t1")
      ∧ (Sign toyStrict toyToken (lit "t1") (lit "body") (cachedWorld recordB)).1
        = Res.ok (lit "jwt.616261626162616261623a616261626162616261623a616261626162616261623a3135t1")
      ∧ ((Sign toyStrict toyToken (lit "t1") (lit "body") (cachedWorld recordA)).2.log.filter
          (fun x => match x.call with
            | Call.AES256Encrypt _ _ => true
            | _ => false))
        = [done (Call.AES256Encrypt
            (hexEncode (sprintfColon (lit "ababababab") (lit "ababababab") (lit "ababababab") 15))
            (lit "t1"))]
      ∧ (payloads (Sign toyStrict toyToken (lit "t1") (lit "body")
            (cachedWorld recordA)).2.log).map (fun o => (o.SecretKey, o.Jti))
        = [(lit "cipher-key-A",
            hexEncode (sprintfColon (lit "ababababab") (lit "ababababab")
              (lit "ababababab") 15) ++ lit "t1")]
      ∧ (payloads (Sign toyStrict toyToken (lit "t1") (lit "body")
            (cachedWorld recordB)).2.log).map (fun o => (o.SecretKey, o.Jti))
        = [(lit "cipher-key-B",
            hexEncode (sprintfColon (lit "ababababab") (lit "ababababab")
              (lit "ababababab") 15) ++ lit "t1")] :=
  ⟨by decide, by decide, rfl, by decide, by decide, by decide, by decide, by decide⟩

theorem slice_eq_some (s : GoString) (lo hi : Nat) (r : GoString) :
    slice s lo hi = some r ↔ (lo ≤ hi ∧ hi ≤ s.length) ∧ r = (s.drop lo).take (hi - lo) := by
  unfold slice
  split <;> simp_all [eq_comm]

theorem slice_eq_none (s : GoString) (lo hi : Nat) :
    slice s lo hi = none ↔ ¬ (lo ≤ hi ∧ hi ≤ s.length) := by
  unfold slice
  split <;> simp_all

theorem slice_length (s : GoString) (lo hi : Nat) (r : GoString) (h : slice s lo hi = some r) :
    r.length = hi - lo := by
  obtain ⟨⟨h1, h2⟩, rfl⟩ := (slice_eq_some s lo hi r).1 h
  simp only [List.length_take, List.length_drop]
  omega

/-- C4: on a token-tier miss, with `s` the `SigKey` of the record that
`createSignature` returned: the three slices exist exactly when `s` has at
least 60 bytes; then `Sign` does not panic, the slices are ten bytes each and
are the audience, issuer and subject of every claim set handed to the codec;
and when `s` is shorter, `Sign` panics right after reading the clock: nothing
is handed to the codec, no token is returned and none is cached. -/
theorem Sign_identifiers_need_sixty (g : Globals) (h : jsonWebToken) (p : GoString) (b : Body)
    (w w2 : World) (sig : SignatureMetadata)
    (hup : h.redis.fault w.tick = none)
    (hmiss : assoc (tokenKey p) w.cache.strings = none)
    (hsig : createSignature g h p b (w.record (Call.Exists (tokenKey p)) none)
      = (Res.ok sig, w2)) :
    ((∃ aud iss sub, slice sig.SigKey 10 20 = some aud ∧ slice sig.SigKey 30 40 = some iss
        ∧ slice sig.SigKey 50 60 = some sub) ↔ 60 ≤ sig.SigKey.length)
    ∧ (60 ≤ sig.SigKey.length →
        (Sign g h p b w).1 ≠ Res.panic
        ∧ ∃ aud iss sub evs, slice sig.SigKey 10 20 = some aud
          ∧ slice sig.SigKey 30 40 = some iss ∧ slice sig.SigKey 50 60 = some sub
          ∧ aud.length = 10 ∧ iss.length = 10 ∧ sub.length = 10
          ∧ (Sign g h p b w).2.log = w2.log ++ evs
          ∧ ∀ o ∈ payloads evs, o.Aud = [aud] ∧ o.Iss = iss ∧ o.Sub = sub)
    ∧ (sig.SigKey.length < 60 →
        Sign g h p b w = (Res.panic, w2.record Call.Now none)
        ∧ assoc (tokenKey p) (Sign g h p b w).2.cache.strings = none) := by
  have hstr : w2.cache.strings = w.cache.strings := by
    obtain ⟨_, -, -, -, -, hs, -⟩ := createSignature_spec g h p b
      (w.record (Call.Exists (tokenKey p)) none)
    rw [hsig] at hs
    exact hs
  have hiff : (∃ aud iss sub, slice sig.SigKey 10 20 = some aud
      ∧ slice sig.SigKey 30 40 = some iss ∧ slice sig.SigKey 50 60 = some sub)
      ↔ 60 ≤ sig.SigKey.length := by
    constructor
    · rintro ⟨aud, iss, sub, -, -, h3⟩
      exact ((slice_eq_some _ _ _ _).1 h3).1.2
    · intro hlen
      exact ⟨_, _, _, (slice_eq_some _ _ _ _).2 ⟨⟨by omega, by omega⟩, rfl⟩,
        (slice_eq_some _ _ _ _).2 ⟨⟨by omega, by omega⟩, rfl⟩,
        (slice_eq_some _ _ _ _).2 ⟨⟨by omega, by omega⟩, rfl⟩⟩
  have key : wp (Sign g h p b) (fun r w1 =>
      (60 ≤ sig.SigKey.length →
        r ≠ Res.panic
        ∧ ∃ evs, w1.log = w2.log ++ evs ∧ ∃ aud iss sub, slice sig.SigKey 10 20 = some aud
          ∧ slice sig.SigKey 30 40 = some iss ∧ slice sig.SigKey 50 60 = some sub
          ∧ aud.length = 10 ∧ iss.length = 10 ∧ sub.length = 10
          ∧ ∀ o ∈ payloads evs, o.Aud = [aud] ∧ o.Iss = iss ∧ o.Sub = sub)
      ∧ (sig.SigKey.length < 60 →
        (r, w1) = (Res.panic, w2.record Call.Now none)
        ∧ assoc (tokenKey p) w1.cache.strings = none)) w := by
    simp only [Sign, ← tokenKey.eq_1]
    rw [wp_bind, wp_Exists]
    simp only [hup, hmiss, Option.isSome_none, Bool.false_eq_true, if_false, forall_const,
      reduceCtorEq, false_implies, implies_true, and_true, wp_ite, Int.lt_irrefl]
    refine ⟨fun _ => ?_, fun hc => absurd (by decide) hc⟩
    rw [wp_bind, wp_of_eq hsig]
    simp only [wp_bind, wp_pure, wp_step, wp_timeNow, wp_sliceM, wp_SetEx, record_tick,
      record_log, record_cache]
    repeat' (first | intro _ | apply And.intro)
    all_goals first
      | (exfalso
         simp only [slice_eq_some, slice_eq_none, not_and, not_le] at *
         omega)
      | contradiction
      | rfl
      | (rw [hstr]; exact hmiss)
      | (simp only [List.append_assoc, List.singleton_append, List.cons_append,
           List.nil_append, List.append_cancel_left_eq, exists_eq_left']
         done)
      | (simp only [List.append_assoc, List.singleton_append, List.cons_append,
           List.nil_append, List.append_cancel_left_eq, exists_eq_left']
         exact ⟨_, _, _, by assumption, by assumption, by assumption,
           slice_length _ 10 20 _ (by assumption), slice_length _ 30 40 _ (by assumption),
           slice_length _ 50 60 _ (by assumption), by simp [payloads]⟩)
  obtain ⟨h60, hshort⟩ := key
  refine ⟨hiff, fun hlen => ?_, hshort⟩
  obtain ⟨hnp, evs, hlog, aud, iss, sub, h1, h2, h3, l1, l2, l3, hp⟩ := h60 hlen
  exact ⟨hnp, aud, iss, sub, evs, h1, h2, h3, l1, l2, l3, hlog, hp⟩

set_option maxRecDepth 4096 in
theorem Sign_identifiers_need_sixty_witness :
    ((∃ aud iss sub, slice shortRecord.SigKey 10 20 = some aud
        ∧ slice shortRecord.SigKey 30 40 = some iss
        ∧ slice shortRecord.SigKey 50 60 = some sub) ↔ 60 ≤ shortRecord.SigKey.length)
    ∧ (60 ≤ shortRecord.SigKey.length →
        (Sign toyGlobals toyToken (lit "t1") (lit "body") (cachedWorld shortRecord)).1
          ≠ Res.panic
        ∧ ∃ aud iss sub evs, slice shortRecord.SigKey 10 20 = some aud
          ∧ slice shortRecord.SigKey 30 40 = some iss
          ∧ slice shortRecord.SigKey 50 60 = some sub
          ∧ aud.length = 10 ∧ iss.length = 10 ∧ sub.length = 10
          ∧ (Sign toyGlobals toyToken (lit "t1") (lit "body") (cachedWorld shortRecord)).2.log
            = (createSignature toyGlobals toyToken (lit "t1") (lit "body")
                ((cachedWorld shortRecord).record (Call.Exists (tokenKey (lit "t1"))) none)).2.log
              ++ evs
          ∧ ∀ o ∈ payloads evs, o.Aud = [aud] ∧ o.Iss = iss ∧ o.Sub = sub)
    ∧ (shortRecord.SigKey.length < 60 →
        Sign toyGlobals toyToken (lit "t1") (lit "body") (cachedWorld shortRecord)
          = (Res.panic,
            (createSignature toyGlobals toyToken (lit "t1") (lit "body")
              ((cachedWorld shortRecord).record (Call.Exists (tokenKey (lit "t1"))) none)).2.record
              Call.Now none)
        ∧ assoc (tokenKey (lit "t1"))
            (Sign toyGlobals toyToken (lit "t1") (lit "body")
              (cachedWorld shortRecord)).2.cache.strings = none) :=
  Sign_identifiers_need_sixty toyGlobals toyToken (lit "t1") (lit "body")
    (cachedWorld shortRecord)
    (createSignature toyGlobals toyToken (lit "t1") (lit "body")
      ((cachedWorld shortRecord).record (Call.Exists (tokenKey (lit "t1"))) none)).2
    shortRecord (by decide) (by decide) (by decide)

/-- C10: a failing `Sign` is not atomic across the tiers.  From an empty cache,
a body that does not serialize makes `Sign` return an error with the secret
tier persisted, and a token codec that fails makes it return an error with the
secret and the signature tier persisted; in both cases the cache has changed,
and the next `Sign` for the prefix returns a token after reading the persisted
tiers: it generates no key pair, and in the second case signs no body. -/
theorem Sign_failure_keeps_lower_tiers :
    (∃ (g : Globals) (h : jsonWebToken) (p : GoString) (b b2 : Body) (w : World) (e : Error)
        (t : GoString),
      assoc (credentialKey p, certificateField) w.cache.hashes = none
      ∧ assoc (credentialKey p, signatureField) w.cache.hashes = none
      ∧ assoc (tokenKey p) w.cache.strings = none
      ∧ (Sign g h p b w).1 = Res.error e
      ∧ done (Call.MarshalBody b) ∉ (Sign g h p b w).2.log
      ∧ (Sign g h p b w).2.cache ≠ w.cache
      ∧ (assoc (credentialKey p, certificateField) (Sign g h p b w).2.cache.hashes).isSome = true
      ∧ assoc (credentialKey p, signatureField) (Sign g h p b w).2.cache.hashes = none
      ∧ (Sign g h p b2 (Sign g h p b w).2).1 = Res.ok t
      ∧ done (Call.HGet (credentialKey p) certificateField)
          ∈ (Sign g h p b2 (Sign g h p b w).2).2.log.drop (Sign g h p b w).2.log.length
      ∧ NoCalls isGenerate
          ((Sign g h p b2 (Sign g h p b w).2).2.log.drop (Sign g h p b w).2.log.length))
    ∧ (∃ (g : Globals) (h : jsonWebToken) (p : GoString) (b b2 : Body) (w : World) (e : Error)
        (t : GoString),
      assoc (credentialKey p, certificateField) w.cache.hashes = none
      ∧ assoc (credentialKey p, signatureField) w.cache.hashes = none
      ∧ assoc (tokenKey p) w.cache.strings = none
      ∧ (Sign g h p b w).1 = Res.error e
      ∧ (Sign g h p b w).2.log.getLast?.map Event.err = some (some e)
      ∧ (payloads (Sign g h p b w).2.log).length = 1
      ∧ (Sign g h p b w).2.cache ≠ w.cache
      ∧ (assoc (credentialKey p, certificateField) (Sign g h p b w).2.cache.hashes).isSome = true
      ∧ (assoc (credentialKey p, signatureField) (Sign g h p b w).2.cache.hashes).isSome = true
      ∧ (Sign g h p b2 (Sign g h p b w).2).1 = Res.ok t
      ∧ done (Call.HGet (credentialKey p) signatureField)
          ∈ (Sign g h p b2 (Sign g h p b w).2).2.log.drop (Sign g h p b w).2.log.length
      ∧ NoCalls isDerive
          ((Sign g h p b2 (Sign g h p b w).2).2.log.drop (Sign g h p b w).2.log.length)) := by
  refine ⟨⟨toyGlobals, toyToken, lit "t1", lit "chan", lit "body", emptyWorld, Error.failure 1,
      lit "jwt.616261626162616261623a616261626162616261623a616261626162616261623a3135t1",
      by decide, by decide, by decide, by decide, by decide, by decide, by decide, by decide,
      by decide, by decide, by unfold NoCalls; decide⟩,
    ⟨toyCodecDown, toyToken, lit "t1", lit "body", lit "another", emptyWorld, Error.failure 4,
      lit "jwt.616261626162616261623a616261626162616261623a616261626162616261623a3135t1",
      by decide, by decide, by decide, by decide, by decide, by decide, by decide,
      by decide, by decide, by decide, by decide, by unfold NoCalls; decide⟩⟩
/-- Every write that `createSecret` attempts stores the serialization of a
complete record, the one it returns on success. -/
theorem createSecret_written (g : Globals) (h : jsonWebToken) (p : GoString) (w : World) :
    wp (createSecret g h p) (fun r w1 => ∃ evs, w1.log = w.log ++ evs
      ∧ ∀ k d f v e, (⟨Call.HSetEx k d f v, e⟩ : Event) ∈ evs →
          ∃ i record, g.MarshalSecret i record = Except.ok v
            ∧ ∀ a, r = Res.ok a → a = record) w := by
  simp only [createSecret, wp_bind, wp_pure, wp_ite, wp_step, wp_timeNow, wp_HExists, wp_HGet,
    wp_HSetEx, ← credentialKey.eq_1, ← certificateField.eq_1, record_tick, record_log, record_cache]
  repeat' (first | intro _ | apply And.intro)
  all_goals simp only [List.append_assoc, List.singleton_append, List.cons_append,
    List.nil_append, List.append_cancel_left_eq, exists_eq_left']
  all_goals simp only [List.mem_cons, List.mem_singleton, List.not_mem_nil, Event.mk.injEq,
    reduceCtorEq, false_and, and_false, or_false, false_or, or_self, false_implies,
    implies_true, IsEmpty.forall_iff, Call.HSetEx.injEq]
  all_goals
    rintro k d f v e ⟨⟨rfl, rfl, rfl, rfl⟩, rfl⟩
    first
      | exact ⟨_, _, by assumption, fun a ha => (Res.ok.inj ha).symm⟩
      | exact ⟨_, _, by assumption, trivial⟩

/-- Every write of the signature tier that `createSignature` attempts stores
the serialization of a complete record, the one it returns on success. -/
theorem createSignature_written (g : Globals) (h : jsonWebToken) (p : GoString) (b : Body)
    (w : World) :
    wp (createSignature g h p b) (fun r w1 => ∃ evs, w1.log = w.log ++ evs
      ∧ ∀ k d v e, (⟨Call.HSetEx k d signatureField v, e⟩ : Event) ∈ evs →
          ∃ i record, g.MarshalSignature i record = Except.ok v
            ∧ ∀ a, r = Res.ok a → a = record) w := by
  simp only [createSignature, wp_bind, wp_pure, wp_ite, wp_step, wp_check, wp_HExists, wp_HGet,
    wp_HSetEx, ← credentialKey.eq_1, ← signatureField.eq_1, record_tick, record_log, record_cache]
  refine ⟨fun hf => ⟨fun hmiss => ?_, fun hhit => ?_⟩, fun e he => ?_⟩
  · apply wp_mono (createSecret_spec g h p _)
    rintro r1 w2 ⟨evs1, hlog, -, hsc, -, -, -, -, -⟩
    have hnoW : ∀ k d v e, (⟨Call.HSetEx k d signatureField v, e⟩ : Event) ∉ evs1 := by
      intro k d v e hm
      have := hsc _ hm
      simp only [secretCall, decide_eq_true_eq] at this
      exact fields_ne this.2.symm
    simp only [record_log, record_cache] at hlog
    cases r1 with
    | ok sk =>
      simp only []
      repeat' (first | intro _ | apply And.intro)
      all_goals simp only [hlog, record_log, List.append_assoc, List.singleton_append,
        List.cons_append, List.nil_append, List.append_cancel_left_eq, exists_eq_left']
      all_goals simp only [List.mem_cons, List.mem_append, hnoW, List.mem_singleton,
        Event.mk.injEq, reduceCtorEq, false_and, and_false, or_false, false_or, or_self,
        List.not_mem_nil, false_implies, implies_true, IsEmpty.forall_iff, Call.HSetEx.injEq,
        and_true, true_and]
      all_goals
        rintro k d v e ⟨⟨rfl, rfl, rfl⟩, rfl⟩
        first
          | exact ⟨_, _, by assumption⟩
          | exact ⟨_, _, by assumption, fun a ha => (Res.ok.inj ha).symm⟩
    | error e =>
      simp only []
      refine ⟨done (Call.HExists (credentialKey p) signatureField) :: evs1,
        by simp only [hlog, done, List.append_assoc, List.singleton_append], ?_⟩
      simp [hnoW, done]
    | panic =>
      simp only []
      refine ⟨done (Call.HExists (credentialKey p) signatureField) :: evs1,
        by simp only [hlog, done, List.append_assoc, List.singleton_append], ?_⟩
      simp [hnoW, done]
  · repeat' (first | intro _ | apply And.intro)
    all_goals simp only [record_log, List.append_assoc, List.singleton_append, List.cons_append,
      List.nil_append, List.append_cancel_left_eq, exists_eq_left']
    all_goals simp
  · simp
/-- C8: each of the three tier routines stops at the first error a step raises
and returns it; it leaves its own tier's cache entry as it was whenever it
does not return a value; it attempts a write of its own tier at most once, as
the last step of its trace; and what that write stores is the serialization of
the complete record (for `Sign`, the token the codec returned), the very value
the routine returns on success. -/
theorem tier_routines_first_error_single_persist (g : Globals) (h : jsonWebToken)
    (p : GoString) (b : Body) (w : World) :
    (∃ evs, (createSecret g h p w).2.log = w.log ++ evs
      ∧ FirstError evs (createSecret g h p w).1
      ∧ NoCalls (isSecretWrite p) evs.dropLast
      ∧ ((∀ a, (createSecret g h p w).1 ≠ Res.ok a) →
          assoc (credentialKey p, certificateField) (createSecret g h p w).2.cache.hashes
            = assoc (credentialKey p, certificateField) w.cache.hashes)
      ∧ (∀ k d v e, (⟨Call.HSetEx k d certificateField v, e⟩ : Event) ∈ evs →
          ∃ i record, g.MarshalSecret i record = Except.ok v
            ∧ ∀ a, (createSecret g h p w).1 = Res.ok a → a = record))
    ∧ (∃ evs, (createSignature g h p b w).2.log = w.log ++ evs
      ∧ FirstError evs (createSignature g h p b w).1
      ∧ NoCalls (isSignatureWrite p) evs.dropLast
      ∧ ((∀ a, (createSignature g h p b w).1 ≠ Res.ok a) →
          assoc (credentialKey p, signatureField) (createSignature g h p b w).2.cache.hashes
            = assoc (credentialKey p, signatureField) w.cache.hashes)
      ∧ (∀ k d v e, (⟨Call.HSetEx k d signatureField v, e⟩ : Event) ∈ evs →
          ∃ i record, g.MarshalSignature i record = Except.ok v
            ∧ ∀ a, (createSignature g h p b w).1 = Res.ok a → a = record))
    ∧ (∃ evs, (Sign g h p b w).2.log = w.log ++ evs
      ∧ FirstError evs (Sign g h p b w).1
      ∧ NoCalls (isTokenWrite p) evs.dropLast
      ∧ ((∀ a, (Sign g h p b w).1 ≠ Res.ok a) →
          assoc (tokenKey p) (Sign g h p b w).2.cache.strings
            = assoc (tokenKey p) w.cache.strings)
      ∧ (∀ k d v e, (⟨Call.SetEx k d v, e⟩ : Event) ∈ evs →
          (∃ o i, g.JwtSign i o = Except.ok v)
            ∧ ∀ t, (Sign g h p b w).1 = Res.ok t → t = v)) := by
  refine ⟨?_, ?_, ?_⟩
  · obtain ⟨evs, hlog, hFE, -, hW, -, -, hno, -⟩ := createSecret_spec g h p w
    obtain ⟨evs2, hlog2, hwr⟩ := createSecret_written g h p w
    have he : evs2 = evs := List.append_cancel_left (hlog2.symm.trans hlog)
    subst he
    exact ⟨evs2, hlog, hFE, NoCalls_mono _ _ _ (isSecretWrite_isWrite p) hW,
      fun hr => by rw [hno hr], fun k d v e hm => hwr k d _ v e hm⟩
  · obtain ⟨evs, hlog, hFE, -, hW, -, hno, -⟩ := createSignature_spec g h p b w
    obtain ⟨evs2, hlog2, hwr⟩ := createSignature_written g h p b w
    have he : evs2 = evs := List.append_cancel_left (hlog2.symm.trans hlog)
    subst he
    exact ⟨evs2, hlog, hFE, hW, hno, hwr⟩
  · obtain ⟨evs, hlog, hFE, hW, hno, -⟩ := Sign_spec g h p b w
    obtain ⟨evs2, hlog2, -, hwr⟩ := Sign_payload g h p b w
    have he : evs2 = evs := List.append_cancel_left (hlog2.symm.trans hlog)
    subst he
    refine ⟨evs2, hlog, hFE, hW, hno, fun k d v e hm => ?_⟩
    obtain ⟨-, -, ⟨o, i, -, ho⟩, ht⟩ := hwr k d v e hm
    exact ⟨⟨o, i, ho⟩, ht⟩

end SecureJwt
